import Mathlib

/-!
# tuntaposx: the ethertap interface (`src/tuntap/src/tap/tap.cc`)

A shallow embedding of the protocol table of `tap_interface`
(`attached_protos`, `add_one_proto`, `if_add_proto`, `if_del_proto`), of the
frame demultiplexer `if_demux`, the framer `if_framer` and the multicast check
`if_check_multi`, of the bring-up and teardown
of the interface, of `tap_module_stop` (`src/tuntap/src/tap/kmod.cc`) and of the version
probe (`src/tuntap/src/os_info.cc`), followed by the theorems about them.

Conventions of the embedding

* The member array `attached_protos[MAX_ATTACHED_PROTOS]` is a `List attached_proto`;
  its length is `MAX_ATTACHED_PROTOS` (the constant lives in `tap.h`, so it is a
  parameter here: every loop `for (i = 0; i < MAX_ATTACHED_PROTOS; i++)` runs over the
  whole list).
* Machine integers are `Nat` (`u_int16_t`, `protocol_family_t`, `errno_t`), the local
  `int free` of `add_one_proto` is an `Int` because the code uses `-1` as "none".
  Only equality tests are made on them, so no wrap-around occurs.
* Memory reached through a pointer (`dd.data`, `header`, a link address) is a list of
  bytes; a byte that is not there reads as `0`.
* A member function that mutates `this` returns the new table next to its `errno_t`.
* What a kernel call answers (`mbuf_prepend`, `read_random`, `register_interface`,
  `ifnet_detach_protocol`, `mem_alloc`, `mgr->shutdown()`) is an argument of the function
  that makes the call; the calls a function makes are listed, in order, in its result.
-/

namespace TunTap

/-! ## Constants of the system headers -/

/-- The value of `ENOENT` in `<sys/errno.h>`. -/
def ENOENT : Nat := 2
/-- The value of `EEXIST` in `<sys/errno.h>`. -/
def EEXIST : Nat := 17
/-- The value of `EINVAL` in `<sys/errno.h>`. -/
def EINVAL : Nat := 22
/-- The value of `ENOBUFS` in `<sys/errno.h>`. -/
def ENOBUFS : Nat := 55
/-- The value of `DLIL_DESC_ETYPE2` in `<net/kpi_interface.h>`. -/
def DLIL_DESC_ETYPE2 : Nat := 4
/-- The value of `ETHER_ADDR_LEN` in `<net/ethernet.h>`. -/
def ETHER_ADDR_LEN : Nat := 6
/-- The value of `sizeof(struct ether_header)`: two addresses and a 16-bit type. -/
def sizeof_ether_header : Nat := 14
/-- The value of `MBUF_BCAST` in `<sys/kpi_mbuf.h>`. -/
def MBUF_BCAST : Nat := 0x0100
/-- The value of `MBUF_MCAST` in `<sys/kpi_mbuf.h>`. -/
def MBUF_MCAST : Nat := 0x0200
/-- The value of `MBUF_PROMISC` in `<sys/kpi_mbuf.h>`. -/
def MBUF_PROMISC : Nat := 0x2000

/-- The array `ETHER_BROADCAST_ADDR` of `tap.cc`. -/
def ETHER_BROADCAST_ADDR : List Nat := [0xff, 0xff, 0xff, 0xff, 0xff, 0xff]

/-! ## Data model -/

/-- One element of `attached_protos`: the in-use flag, the ethertype and the handle. -/
structure attached_proto where
  used : Bool
  type : Nat
  proto : Nat
deriving DecidableEq, Repr

/-- The fields of `struct ifnet_demux_desc` that `add_one_proto` reads. -/
structure ifnet_demux_desc where
  type : Nat
  data : List Nat
  datalen : Nat
deriving DecidableEq, Repr

/-- The part of an mbuf that `if_demux` looks at: its length and its flag word. -/
structure mbuf where
  len : Nat
  flags : Nat
deriving DecidableEq, Repr

/-- The 16-bit load `*((u_int16_t *) p)` from the bytes at `p` (host order, little endian). -/
def load_u16 (p : List Nat) : Nat :=
  p.getD 0 0 + 256 * p.getD 1 0

/-- The field `ether_dhost` of the header at `header`: its first six bytes. -/
def ether_dhost (header : List Nat) : List Nat :=
  header.take ETHER_ADDR_LEN

/-- The field `ether_type` of the header at `header`: the 16-bit word at offset 12. -/
def ether_type (header : List Nat) : Nat :=
  load_u16 (header.drop 12)

/-- The libc `memcmp` on the first `n` bytes: the difference at the first mismatch. -/
def memcmp : List Nat → List Nat → Nat → Int
  | _, _, 0 => 0
  | a, b, n + 1 =>
    if a.headD 0 = b.headD 0 then memcmp a.tail b.tail n
    else (a.headD 0 : Int) - (b.headD 0 : Int)

/-- The kernel call `mbuf_setflags_mask`: the bits of `mask` are replaced by those of `flags`. -/
def mbuf_setflags_mask (m : mbuf) (flags mask : Nat) : mbuf :=
  { m with flags := (m.flags &&& (0xffffffff ^^^ mask)) ||| (flags &&& mask) }

/-! ## `tap_interface::add_one_proto` -/

/-- How the scanning loop of `add_one_proto` ends: by a `return` inside the loop, or by
running to the end with the value of the local `free`. -/
inductive scan_outcome where
  | returned (err : Nat)
  | finished (free : Int)
deriving DecidableEq, Repr

/-- The loop `for (i = 0; i < MAX_ATTACHED_PROTOS; i++)` of `add_one_proto`, from index `i`
on, over the slots not yet visited. -/
def add_one_proto_scan (proto dt : Nat) : List attached_proto → Nat → Int → scan_outcome
  | [], _, free => .finished free
  | s :: rest, i, free =>
    if s.used then
      if dt = s.type then
        if s.proto = proto then .returned 0 else .returned EEXIST
      else add_one_proto_scan proto dt rest (i + 1) free
    else if free = -1 then add_one_proto_scan proto dt rest (i + 1) (i : Int)
    else add_one_proto_scan proto dt rest (i + 1) free

/-- The function `tap_interface::add_one_proto(proto, dd)` on the table `tbl`. -/
def add_one_proto (tbl : List attached_proto) (proto : Nat) (dd : ifnet_demux_desc) :
    Nat × List attached_proto :=
  if dd.type ≠ DLIL_DESC_ETYPE2 ∨ dd.datalen ≠ 2 then (EINVAL, tbl)
  else
    let dt := load_u16 dd.data
    match add_one_proto_scan proto dt tbl 0 (-1) with
    | .returned err => (err, tbl)
    | .finished free =>
      if free = -1 then (ENOBUFS, tbl)
      else (0, tbl.set free.toNat { used := true, type := dt, proto := proto })

/-! ## `tap_interface::if_del_proto` and `tap_interface::if_add_proto` -/

/-- The loop of `if_del_proto`: every slot whose handle is `proto` gets `used = false`. -/
def if_del_proto_loop (proto : Nat) : List attached_proto → List attached_proto
  | [] => []
  | s :: rest =>
    (if s.proto = proto then { s with used := false } else s) :: if_del_proto_loop proto rest

/-- The function `tap_interface::if_del_proto(proto)` on the table `tbl`. -/
def if_del_proto (tbl : List attached_proto) (proto : Nat) : Nat × List attached_proto :=
  (0, if_del_proto_loop proto tbl)

/-- The function `tap_interface::if_add_proto(proto, desc, ndesc)` on the table `tbl`; the
list `desc` has `ndesc` elements. -/
def if_add_proto (tbl : List attached_proto) (proto : Nat) :
    List ifnet_demux_desc → Nat × List attached_proto
  | [] => (0, tbl)
  | dd :: rest =>
    let r := add_one_proto tbl proto dd
    if r.1 ≠ 0 then (r.1, (if_del_proto r.2 proto).2)
    else if_add_proto r.2 proto rest

/-! ## `tap_interface::if_demux` -/

/-- The loop "find the protocol" of `if_demux`: the handle of the first in-use slot whose
type is `et`, if there is one. -/
def if_demux_find (et : Nat) : List attached_proto → Option Nat
  | [] => none
  | s :: rest => if s.used && decide (s.type = et) then some s.proto else if_demux_find et rest

/-- The classification part of `if_demux`: the flag it sets on the mbuf. `lladdr` is what
`ifnet_lladdr_copy_bytes` delivers, the link address of the interface. -/
def if_demux_classify (lladdr : List Nat) (m : mbuf) (header : List Nat) : mbuf :=
  if (ether_dhost header).headD 0 &&& 1 ≠ 0 then
    if memcmp ETHER_BROADCAST_ADDR (ether_dhost header) ETHER_ADDR_LEN = 0 then
      mbuf_setflags_mask m MBUF_BCAST MBUF_BCAST
    else
      mbuf_setflags_mask m MBUF_MCAST MBUF_MCAST
  else
    if memcmp lladdr (ether_dhost header) ETHER_ADDR_LEN ≠ 0 then
      mbuf_setflags_mask m MBUF_PROMISC MBUF_PROMISC
    else m

/-- The function `tap_interface::if_demux(m, header, proto)`: the value returned, the mbuf
and the contents of `*proto` afterwards. -/
def if_demux (tbl : List attached_proto) (lladdr : List Nat) (m : mbuf) (header : List Nat)
    (proto : Nat) : Nat × mbuf × Nat :=
  if m.len < sizeof_ether_header then (ENOENT, m, proto)
  else
    let m1 := if_demux_classify lladdr m header
    match if_demux_find (ether_type header) tbl with
    | some p => (0, m1, p)
    | none => (ENOENT, m1, proto)

/-! ## Predicates used by the theorems -/

/-- No two in-use slots of the table hold the same ethertype. -/
def unique_types (tbl : List attached_proto) : Prop :=
  tbl.Pairwise (fun a b => ¬(a.used = true ∧ b.used = true ∧ a.type = b.type))

instance (tbl : List attached_proto) : Decidable (unique_types tbl) := by
  unfold unique_types; infer_instance

/-- The in-use bindings of a table, in slot order: the pairs (ethertype, handle). -/
def bindings (tbl : List attached_proto) : List (Nat × Nat) :=
  (tbl.filter (fun s => s.used)).map (fun s => (s.type, s.proto))

/-- A descriptor that `add_one_proto` accepts. -/
def valid_desc (dd : ifnet_demux_desc) : Prop :=
  dd.type = DLIL_DESC_ETYPE2 ∧ dd.datalen = 2

instance (dd : ifnet_demux_desc) : Decidable (valid_desc dd) := by
  unfold valid_desc; infer_instance

/-- A call of the registry: `if_add_proto` or `if_del_proto`. -/
inductive registry_call where
  | add (proto : Nat) (desc : List ifnet_demux_desc)
  | del (proto : Nat)

/-- The table after a sequence of registry calls, made one after the other. -/
def run_calls : List attached_proto → List registry_call → List attached_proto
  | tbl, [] => tbl
  | tbl, .add proto desc :: cs => run_calls (if_add_proto tbl proto desc).2 cs
  | tbl, .del proto :: cs => run_calls (if_del_proto tbl proto).2 cs

/-- The descriptor of kind `DLIL_DESC_ETYPE2` whose two data bytes are `b0`, `b1`. -/
def etype2_desc (b0 b1 : Nat) : ifnet_demux_desc :=
  { type := DLIL_DESC_ETYPE2, data := [b0, b1], datalen := 2 }

/-- A slot that is not in use, all fields zero (the state after `bzero`). -/
def free_slot : attached_proto := { used := false, type := 0, proto := 0 }

/-! ## Closed forms used in the proofs -/

/-- The first in-use slot of the table whose type is `dt`. -/
def first_match (dt : Nat) : List attached_proto → Option attached_proto
  | [] => none
  | s :: rest => if s.used = true ∧ s.type = dt then some s else first_match dt rest

/-- The index of the first slot that is not in use. -/
def first_free_index : List attached_proto → Option Nat
  | [] => none
  | s :: rest => if s.used then (first_free_index rest).map (· + 1) else some 0

/-- The table with its first slot that is not in use replaced by `new`. -/
def fill_first_free (new : attached_proto) : List attached_proto → List attached_proto
  | [] => []
  | s :: rest => if s.used then s :: fill_first_free new rest else new :: rest

/-! ## The classification of the specification -/

/-- The four classes of a destination address named by the specification. -/
inductive classification where
  | Broadcast
  | Multicast
  | UnicastLocal
  | Promiscuous
deriving DecidableEq, Repr

/-- The classification in the priority order of the specification: the broadcast address
first, then the group bit of the first byte, then the address of the interface. -/
def spec_classify (d a : List Nat) : classification :=
  if d = ETHER_BROADCAST_ADDR then .Broadcast
  else if d.headD 0 % 2 = 1 then .Multicast
  else if d = a then .UnicastLocal
  else .Promiscuous

/-- The mbuf flag that stands for a class; a frame for the interface itself gets none. -/
def spec_flag : classification → Option Nat
  | .Broadcast => some MBUF_BCAST
  | .Multicast => some MBUF_MCAST
  | .UnicastLocal => none
  | .Promiscuous => some MBUF_PROMISC

/-! ## `tap_interface::if_framer` -/

/-- The value of `ENOMEM` in `<sys/errno.h>`, the error of a failed `mbuf_prepend`. -/
def ENOMEM : Nat := 12

/-- The `n` bytes at `p`, as `memcpy` and `ifnet_lladdr_copy_bytes` read them. -/
def read_bytes (p : List Nat) (n : Nat) : List Nat :=
  (List.range n).map (fun i => p.getD i 0)

/-- The buffer `buf` after the bytes `bs` were stored at offset `off`. -/
def write_bytes (buf : List Nat) (off : Nat) (bs : List Nat) : List Nat :=
  buf.take off ++ bs ++ buf.drop (off + bs.length)

/-- The two bytes that the 16-bit store `*((u_int16_t *) p) = v` writes (host order, little
endian, as in `load_u16`). -/
def store_u16 (v : Nat) : List Nat :=
  [v % 256, v / 256 % 256]

/-- The kernel call `mbuf_prepend(&nm, len, how)` on an mbuf whose data is `data`. Whether
the kernel can grow the buffer is not decided by this code: `err` is the value the call
returns (0 on success) and `fresh` the contents of the new, not yet written region. On
failure the mbuf is gone and `nm` is null. -/
def mbuf_prepend (err : Nat) (fresh : List Nat) (data : List Nat) (len : Nat) :
    Nat × Option (List Nat) :=
  if err ≠ 0 then (err, none) else (0, some (read_bytes fresh len ++ data))

/-- The function `tap_interface::if_framer(m, dest, dest_linkaddr, frame_type)`: the value
returned and the data of the mbuf `*m` afterwards. `lladdr` is what
`ifnet_lladdr_copy_bytes` delivers during this call; `err` and `fresh` are the outcome of
`mbuf_prepend`. The header is written at the start of the data: `ether_dhost` at offset 0,
`ether_shost` at offset 6, `ether_type` at offset 12. -/
def if_framer (lladdr : List Nat) (err : Nat) (fresh : List Nat) (m : List Nat)
    (dest_linkaddr frame_type : List Nat) : Nat × List Nat :=
  let r := mbuf_prepend err fresh m sizeof_ether_header
  if r.1 ≠ 0 then (r.1, m)
  else
    let nm := r.2.getD []
    let eh0 := write_bytes nm 0 (read_bytes dest_linkaddr ETHER_ADDR_LEN)
    let eh1 := write_bytes eh0 ETHER_ADDR_LEN (read_bytes lladdr ETHER_ADDR_LEN)
    let eh2 := write_bytes eh1 (2 * ETHER_ADDR_LEN) (store_u16 (load_u16 frame_type))
    (0, eh2)

/-- A list of bytes: every element is below 256. -/
def is_bytes (p : List Nat) : Prop :=
  ∀ b ∈ p, b < 256

instance (p : List Nat) : Decidable (is_bytes p) := by
  unfold is_bytes; infer_instance

/-! ## `tap_interface::initialize_interface` and `tap_interface::shutdown_interface` -/

/-- The value of `EIO` in `<sys/errno.h>`. -/
def EIO : Nat := 5
/-- The value of `IFF_BROADCAST` in `<net/if.h>`. -/
def IFF_BROADCAST : Nat := 0x2
/-- The value of `DLT_EN10MB` in `<net/bpf.h>`. -/
def DLT_EN10MB : Nat := 1

/-- The calls that `initialize_interface` and `shutdown_interface` make into the kernel and
into the base class `tuntap_interface`, with their arguments. -/
inductive iface_call where
  | read_random (len : Nat)
  | register_interface (lladdr : List Nat) (bcast : List Nat) (len : Nat)
  | ifnet_set_lladdr (lladdr : List Nat) (len : Nat)
  | ifnet_set_mtu (mtu : Nat)
  | ifnet_set_hdrlen (len : Nat)
  | ifnet_set_flags (flags mask : Nat)
  | bpfattach (dlt hdrlen : Nat)
  | ifnet_detach_protocol (proto : Nat)
  | log_warning (proto : Nat)
  | cleanup_interface
  | unregister_interface
deriving DecidableEq, Repr

/-- The link address of `initialize_interface` after the two assignments
`(LLADDR(&lladdr))[0] &= 0xfe` and `(LLADDR(&lladdr))[0] |= 0x02`, from the bytes `random`
that `read_random` delivered. -/
def random_lladdr (random : List Nat) : List Nat :=
  let a0 := read_bytes random ETHER_ADDR_LEN
  let a1 := a0.set 0 (a0.getD 0 0 &&& 0xfe)
  a1.set 0 (a1.getD 0 0 ||| 0x02)

/-- The function `tap_interface::initialize_interface()`: the value returned and the calls
made, in order. `random` are the bytes of `read_random`, `register_ok` is the result of
`register_interface`, and `TAP_MTU` is the constant of `tap.h`. The call `ifnet_hdrlen(ifp)`
gives the length set just before. -/
def initialize_interface (random : List Nat) (register_ok : Bool) (TAP_MTU : Nat) :
    Nat × List iface_call :=
  let lladdr := random_lladdr random
  let pre := [iface_call.read_random ETHER_ADDR_LEN,
    iface_call.register_interface lladdr ETHER_BROADCAST_ADDR ETHER_ADDR_LEN]
  if !register_ok then ( EIO, pre)
  else (0, pre ++ [iface_call.ifnet_set_lladdr lladdr ETHER_ADDR_LEN,
    iface_call.ifnet_set_mtu TAP_MTU,
    iface_call.ifnet_set_hdrlen sizeof_ether_header,
    iface_call.ifnet_set_flags IFF_BROADCAST IFF_BROADCAST,
    iface_call.bpfattach DLT_EN10MB sizeof_ether_header])

/-- The value of `KMOD_RETURN_SUCCESS` (`KERN_SUCCESS`) in `<mach/kmod.h>`. -/
def KMOD_RETURN_SUCCESS : Nat := 0
/-- The value of `KMOD_RETURN_FAILURE` (`KERN_FAILURE`) in `<mach/kmod.h>`. -/
def KMOD_RETURN_FAILURE : Nat := 5

/-- What `tap_module_stop` does to the manager and to the locking primitive. -/
inductive kmod_call where
  | mgr_shutdown
  | mgr_delete
  | tt_lock_shutdown
deriving DecidableEq, Repr

/-- The function `tap_module_stop`: the value returned, the static pointer `mgr` afterwards
(`none` is `NULL`) and the calls made, in order. `shutdown_ok` is the result of
`mgr->shutdown()`. -/
def tap_module_stop (shutdown_ok : Bool) (mgr : Option Nat) :
    Nat × Option Nat × List kmod_call :=
  match mgr with
  | some p =>
    if !shutdown_ok then (KMOD_RETURN_FAILURE, some p, [kmod_call.mgr_shutdown])
    else (KMOD_RETURN_SUCCESS, none,
      [kmod_call.mgr_shutdown, kmod_call.mgr_delete, kmod_call.tt_lock_shutdown])
  | none => (KMOD_RETURN_SUCCESS, none, [kmod_call.tt_lock_shutdown])

/-! ## The version probe (`src/tuntap/src/os_info.cc`) -/

/-- How a slot can differ while `if_add_proto(h, ..)` is adding bindings to the table `l0`:
`s0` is the slot before the call and `s` the slot now. Either nothing happened to it, or it
was free and now holds an in-use binding of `h` for a type that no in-use slot of `l0`
held. -/
def slot_step (h : Nat) (l0 : List attached_proto) (s0 s : attached_proto) : Prop :=
  s = s0 ∨ (s0.used = false ∧ s.used = true ∧ s.proto = h ∧
    ∀ x ∈ l0, x.used = true → x.type ≠ s.type)

/-- No in-use binding changes its slot index between `before` and `after`: a slot in use
before is afterwards the same or only cleared, and a slot in use afterwards is the same as
before or was free and holds a type that no in-use slot held before. -/
def slots_stay (before after : List attached_proto) : Prop :=
  after.length = before.length ∧
  ∀ (i : Nat) (s s' : attached_proto), before[i]? = some s → after[i]? = some s' →
    (s.used = true → s' = s ∨ s' = { s with used := false }) ∧
    (s'.used = true → s' = s ∨
      (s.used = false ∧ ∀ x ∈ before, x.used = true → x.type ≠ s'.type))

/-! ## `tap_interface::if_check_multi` -/

/-- The value of `AF_LINK` in `<sys/socket.h>`. -/
def AF_LINK : Nat := 18
/-- The value of `EADDRNOTAVAIL` in `<sys/errno.h>`. -/
def EADDRNOTAVAIL : Nat := 49
/-- The value of `EOPNOTSUPP` in `<sys/errno.h>` (kernel). -/
def EOPNOTSUPP : Nat := 102

/-- The fields of `struct sockaddr_dl` that `if_check_multi` reads. The family is at the same
place as `sa_family` of the `struct sockaddr` the function is handed. -/
structure sockaddr_dl where
  sa_family : Nat
  sdl_nlen : Nat
  sdl_data : List Nat
deriving DecidableEq, Repr

/-- The macro `LLADDR(s)` of `<net/if_dl.h>`: the bytes at `s->sdl_data + s->sdl_nlen`. -/
def LLADDR (s : sockaddr_dl) : List Nat :=
  s.sdl_data.drop s.sdl_nlen

/-- The function `tap_interface::if_check_multi(maddr)`. -/
def if_check_multi (maddr : sockaddr_dl) : Nat :=
  if maddr.sa_family = AF_LINK then
    if (LLADDR maddr).headD 0 &&& 0x01 ≠ 0 then 0
    else EADDRNOTAVAIL
  else EOPNOTSUPP

/-- The `sockaddr_dl` that `initialize_interface` fills in for the link address `addr`:
family `AF_LINK`, no interface name in front of the address. -/
def link_sockaddr (addr : List Nat) : sockaddr_dl :=
  { sa_family := AF_LINK, sdl_nlen := 0, sdl_data := addr }

/-! ## Idempotence of attach -/

/-- Attach is idempotent on the table `tbl` for the handle `h` and the descriptor `dd` of the
ethertype `t`: if an in-use slot already holds (t, h), adding (h, t) again returns 0 and
leaves the table unchanged; and if `if_add_proto(h, [t])` succeeds, a second call returns 0
and yields the same table, in which exactly one in-use slot holds `t`. -/
def attach_is_idempotent (tbl : List attached_proto) (h : Nat) (dd : ifnet_demux_desc) : Prop :=
  ((∃ s ∈ tbl, s.used = true ∧ s.type = load_u16 dd.data ∧ s.proto = h) →
    add_one_proto tbl h dd = (0, tbl)) ∧
  ((if_add_proto tbl h [dd]).1 = 0 →
    if_add_proto (if_add_proto tbl h [dd]).2 h [dd] = (0, (if_add_proto tbl h [dd]).2) ∧
    (if_add_proto tbl h [dd]).2.countP
      (fun s => s.used && decide (s.type = load_u16 dd.data)) = 1)

/-! ## The scanning loop of `add_one_proto` in closed form -/

theorem add_one_proto_scan_eq (proto dt : Nat) (l : List attached_proto) :
    ∀ (i : Nat) (free : Int), add_one_proto_scan proto dt l i free =
      match first_match dt l with
      | some s => .returned (if s.proto = proto then 0 else EEXIST)
      | none => .finished (if free = -1 then
          (match first_free_index l with
           | some k => ((i + k : Nat) : Int)
           | none => -1) else free) := by
  induction l with
  | nil =>
    intro i free
    by_cases hf : free = -1 <;> simp [add_one_proto_scan, first_match, first_free_index, hf]
  | cons s rest ih =>
    intro i free
    by_cases hu : s.used = true
    · by_cases ht : dt = s.type
      · by_cases hp : s.proto = proto <;> simp [add_one_proto_scan, first_match, hu, ht, hp]
      · have ht' : ¬ s.type = dt := fun h => ht h.symm
        simp only [add_one_proto_scan, first_match, hu, ht, ht', ih, first_free_index,
          if_true, if_false, and_false]
        cases first_match dt rest with
        | some x => rfl
        | none =>
          cases first_free_index rest with
          | none => simp
          | some k =>
            by_cases hf : free = -1
            · simp only [hf, if_true, Option.map_some']; congr 1; push_cast; omega
            · simp [hf]
    · have hu' : s.used = false := by simpa using hu
      simp only [add_one_proto_scan, first_match, hu', ih, first_free_index]
      by_cases hf : free = -1
      · have hi : ¬ ((i : Int) = -1) := by omega
        simp only [hf, hi, if_true, if_false, Bool.false_eq_true, false_and, Nat.add_zero]
      · simp [hf]

theorem set_first_free (new : attached_proto) (l : List attached_proto) :
    ∀ k, first_free_index l = some k → l.set k new = fill_first_free new l := by
  induction l with
  | nil => intro k h; simp [first_free_index] at h
  | cons s rest ih =>
    intro k h
    by_cases hu : s.used = true
    · simp only [first_free_index, hu, if_true, Option.map_eq_some'] at h
      obtain ⟨j, hj, rfl⟩ := h
      simp [fill_first_free, hu, ih j hj]
    · have hu' : s.used = false := by simpa using hu
      simp only [first_free_index, hu'] at h
      simp at h
      subst h
      simp [fill_first_free, hu']

/-- The function `add_one_proto` by cases: a rejected descriptor, a slot that already holds
the type, a full table, and a free slot that is filled. -/
theorem add_one_proto_eq (tbl : List attached_proto) (proto : Nat) (dd : ifnet_demux_desc) :
    add_one_proto tbl proto dd =
      if ¬ valid_desc dd then (EINVAL, tbl)
      else match first_match (load_u16 dd.data) tbl with
        | some s => (if s.proto = proto then 0 else EEXIST, tbl)
        | none =>
          match first_free_index tbl with
          | none => (ENOBUFS, tbl)
          | some _ => (0, fill_first_free
              { used := true, type := load_u16 dd.data, proto := proto } tbl) := by
  unfold add_one_proto valid_desc
  by_cases hv : dd.type = DLIL_DESC_ETYPE2 ∧ dd.datalen = 2
  · have hv' : ¬ (dd.type ≠ DLIL_DESC_ETYPE2 ∨ dd.datalen ≠ 2) := by
      rcases hv with ⟨h1, h2⟩; simp [h1, h2]
    simp only [hv', hv, if_false, not_true_eq_false, add_one_proto_scan_eq]
    cases first_match (load_u16 dd.data) tbl with
    | some s => rfl
    | none =>
      cases hk : first_free_index tbl with
      | none => simp
      | some k =>
        have : ¬ ((((0 + k : Nat) : Int)) = -1) := by omega
        simp [this, set_first_free _ _ k hk]
  · have hv' : dd.type ≠ DLIL_DESC_ETYPE2 ∨ dd.datalen ≠ 2 := by
      by_contra hc
      push_neg at hc
      exact hv hc
    simp [hv', hv]

/-! ## Facts about the closed forms -/

theorem first_match_some {dt : Nat} {l : List attached_proto} {s : attached_proto}
    (h : first_match dt l = some s) : s ∈ l ∧ s.used = true ∧ s.type = dt := by
  induction l with
  | nil => simp [first_match] at h
  | cons a rest ih =>
    by_cases ha : a.used = true ∧ a.type = dt
    · simp only [first_match, ha, and_self, if_true, Option.some.injEq] at h
      subst h
      exact ⟨List.mem_cons_self _ _, ha.1, ha.2⟩
    · simp only [first_match, ha, if_false] at h
      obtain ⟨h1, h2, h3⟩ := ih h
      exact ⟨List.mem_cons_of_mem _ h1, h2, h3⟩

theorem first_match_none {dt : Nat} {l : List attached_proto} :
    first_match dt l = none ↔ ∀ x ∈ l, x.used = true → x.type ≠ dt := by
  induction l with
  | nil => simp [first_match]
  | cons a rest ih =>
    by_cases ha : a.used = true ∧ a.type = dt
    · rw [first_match, if_pos ha]
      constructor
      · intro h; cases h
      · intro h; exact absurd ha.2 (h a (List.mem_cons_self _ _) ha.1)
    · rw [first_match, if_neg ha, ih]
      constructor
      · intro h x hx
        rcases List.mem_cons.mp hx with rfl | hx
        · exact fun hu ht => ha ⟨hu, ht⟩
        · exact h x hx
      · intro h x hx; exact h x (List.mem_cons_of_mem _ hx)

theorem first_free_index_none {l : List attached_proto} :
    first_free_index l = none ↔ ∀ x ∈ l, x.used = true := by
  induction l with
  | nil => simp [first_free_index]
  | cons a rest ih =>
    by_cases ha : a.used = true
    · simp [first_free_index, ha, ih]
    · simp [first_free_index, ha]

theorem unique_types_mem {l : List attached_proto} (hu : unique_types l)
    {s s' : attached_proto} (hs : s ∈ l) (hs' : s' ∈ l) (h1 : s.used = true)
    (h2 : s'.used = true) (h3 : s.type = s'.type) : s = s' := by
  unfold unique_types at hu
  induction l with
  | nil => cases hs
  | cons a rest ih =>
    rw [List.pairwise_cons] at hu
    rcases List.mem_cons.mp hs with e1 | m1
    · rcases List.mem_cons.mp hs' with e2 | m2
      · rw [e1, e2]
      · subst e1
        exact absurd ⟨h1, h2, h3⟩ (hu.1 s' m2)
    · rcases List.mem_cons.mp hs' with e2 | m2
      · subst e2
        exact absurd ⟨h2, h1, h3.symm⟩ (hu.1 s m1)
      · exact ih hu.2 m1 m2

theorem first_match_of_unique {l : List attached_proto} (hu : unique_types l)
    {s : attached_proto} (hs : s ∈ l) (h1 : s.used = true) :
    first_match s.type l = some s := by
  cases hm : first_match s.type l with
  | none => exact absurd rfl (first_match_none.mp hm s hs h1)
  | some x =>
    obtain ⟨hx, hxu, hxt⟩ := first_match_some hm
    rw [unique_types_mem hu hx hs hxu h1 hxt]

theorem if_demux_find_eq (et : Nat) (l : List attached_proto) :
    if_demux_find et l = (first_match et l).map (fun s => s.proto) := by
  induction l with
  | nil => rfl
  | cons a rest ih =>
    by_cases ha : a.used = true ∧ a.type = et
    · simp [if_demux_find, first_match, ha]
    · have : (a.used && decide (a.type = et)) = false := by
        rw [Bool.and_eq_false_iff]
        by_cases hu : a.used = true
        · right; simpa using fun h => ha ⟨hu, h⟩
        · left; simpa using hu
      simp [if_demux_find, first_match, ha, this, ih]

theorem mem_fill_first_free {new y : attached_proto} {l : List attached_proto}
    (h : y ∈ fill_first_free new l) : y = new ∨ y ∈ l := by
  induction l with
  | nil => simp [fill_first_free] at h
  | cons a rest ih =>
    by_cases ha : a.used = true
    · rw [fill_first_free, if_pos ha] at h
      rcases List.mem_cons.mp h with h1 | h1
      · exact Or.inr (h1 ▸ List.mem_cons_self _ _)
      · rcases ih h1 with h2 | h2
        · exact Or.inl h2
        · exact Or.inr (List.mem_cons_of_mem _ h2)
    · rw [fill_first_free, if_neg ha] at h
      rcases List.mem_cons.mp h with h1 | h1
      · exact Or.inl h1
      · exact Or.inr (List.mem_cons_of_mem _ h1)

theorem new_mem_fill_first_free {new : attached_proto} {l : List attached_proto}
    (h : first_free_index l ≠ none) : new ∈ fill_first_free new l := by
  induction l with
  | nil => simp [first_free_index] at h
  | cons a rest ih =>
    by_cases ha : a.used = true
    · simp only [first_free_index, ha, if_true, ne_eq, Option.map_eq_none'] at h
      simp [fill_first_free, ha, ih h]
    · simp [fill_first_free, ha]

theorem unique_types_fill {new : attached_proto} {l : List attached_proto}
    (hu : unique_types l) (hn : first_match new.type l = none) :
    unique_types (fill_first_free new l) := by
  rw [first_match_none] at hn
  unfold unique_types at hu ⊢
  induction l with
  | nil => simp [fill_first_free]
  | cons a rest ih =>
    rw [List.pairwise_cons] at hu
    have hrest : ∀ x ∈ rest, x.used = true → x.type ≠ new.type :=
      fun x hx => hn x (List.mem_cons_of_mem _ hx)
    by_cases ha : a.used = true
    · rw [fill_first_free, if_pos ha, List.pairwise_cons]
      refine ⟨?_, ih hu.2 hrest⟩
      intro y hy
      rcases mem_fill_first_free hy with rfl | hy
      · intro hc
        exact hn a (List.mem_cons_self _ _) ha hc.2.2
      · exact hu.1 y hy
    · rw [fill_first_free, if_neg ha, List.pairwise_cons]
      refine ⟨?_, hu.2⟩
      intro y hy hc
      exact hrest y hy hc.2.1 hc.2.2.symm

theorem if_del_proto_loop_eq_map (proto : Nat) (l : List attached_proto) :
    if_del_proto_loop proto l =
      l.map (fun s => if s.proto = proto then { s with used := false } else s) := by
  induction l with
  | nil => rfl
  | cons a rest ih => simp [if_del_proto_loop, ih]

theorem unique_types_del {l : List attached_proto} (hu : unique_types l) (proto : Nat) :
    unique_types (if_del_proto_loop proto l) := by
  unfold unique_types at hu ⊢
  rw [if_del_proto_loop_eq_map, List.pairwise_map]
  refine hu.imp ?_
  intro a b hab hc
  apply hab
  by_cases ha : a.proto = proto <;> by_cases hb : b.proto = proto <;> simp_all

theorem unique_types_add_one {tbl : List attached_proto} (hu : unique_types tbl)
    (proto : Nat) (dd : ifnet_demux_desc) : unique_types (add_one_proto tbl proto dd).2 := by
  rw [add_one_proto_eq]
  by_cases hv : valid_desc dd
  · simp only [hv, not_true_eq_false, if_false]
    cases hm : first_match (load_u16 dd.data) tbl with
    | some s => exact hu
    | none =>
      cases hk : first_free_index tbl with
      | none => exact hu
      | some k => exact unique_types_fill hu hm
  · simpa [hv] using hu

theorem unique_types_if_add (proto : Nat) (desc : List ifnet_demux_desc) :
    ∀ tbl : List attached_proto, unique_types tbl →
      unique_types (if_add_proto tbl proto desc).2 := by
  induction desc with
  | nil => intro tbl hu; exact hu
  | cons dd rest ih =>
    intro tbl hu
    have h1 := unique_types_add_one hu proto dd
    by_cases he : (add_one_proto tbl proto dd).1 = 0
    · simp only [if_add_proto, he, ne_eq, not_true_eq_false, if_false]
      exact ih _ h1
    · simp only [if_add_proto, he, ne_eq, not_false_eq_true, if_true, if_del_proto]
      exact unique_types_del h1 proto

theorem unique_types_replicate_free (n : Nat) (t p : Nat) :
    unique_types (List.replicate n { used := false, type := t, proto := p }) := by
  unfold unique_types
  rw [List.pairwise_replicate]
  right
  simp

/-! ## What one call of `add_one_proto` does to the table -/

theorem add_one_proto_table (tbl : List attached_proto) (proto : Nat) (dd : ifnet_demux_desc) :
    (add_one_proto tbl proto dd).2 = tbl ∨
    ((add_one_proto tbl proto dd).1 = 0 ∧
      first_match (load_u16 dd.data) tbl = none ∧ first_free_index tbl ≠ none ∧
      (add_one_proto tbl proto dd).2 =
        fill_first_free { used := true, type := load_u16 dd.data, proto := proto } tbl) := by
  rw [add_one_proto_eq]
  by_cases hv : valid_desc dd
  · rw [if_neg (not_not.mpr hv)]
    cases hm : first_match (load_u16 dd.data) tbl with
    | some s => exact Or.inl rfl
    | none =>
      cases hk : first_free_index tbl with
      | none => exact Or.inl rfl
      | some k => exact Or.inr ⟨rfl, rfl, by simp, rfl⟩
  · rw [if_pos hv]; exact Or.inl rfl

theorem add_one_proto_error_table (tbl : List attached_proto) (proto : Nat)
    (dd : ifnet_demux_desc) (he : (add_one_proto tbl proto dd).1 ≠ 0) :
    (add_one_proto tbl proto dd).2 = tbl := by
  rcases add_one_proto_table tbl proto dd with h | h
  · exact h
  · exact absurd h.1 he

theorem add_one_proto_ok_bound (tbl : List attached_proto) (proto : Nat)
    (dd : ifnet_demux_desc) (hok : (add_one_proto tbl proto dd).1 = 0) :
    valid_desc dd ∧ ∃ s ∈ (add_one_proto tbl proto dd).2,
      s.used = true ∧ s.type = load_u16 dd.data ∧ s.proto = proto := by
  rw [add_one_proto_eq] at hok ⊢
  by_cases hv : valid_desc dd
  · refine ⟨hv, ?_⟩
    rw [if_neg (not_not.mpr hv)] at hok ⊢
    cases hm : first_match (load_u16 dd.data) tbl with
    | some s =>
      rw [hm] at hok
      obtain ⟨h1, h2, h3⟩ := first_match_some hm
      by_cases hp : s.proto = proto
      · exact ⟨s, h1, h2, h3, hp⟩
      · simp [hp, EEXIST] at hok
    | none =>
      rw [hm] at hok
      cases hk : first_free_index tbl with
      | none => rw [hk] at hok; simp [ENOBUFS] at hok
      | some k =>
        refine ⟨_, new_mem_fill_first_free (by simp [hk]), rfl, rfl, rfl⟩
  · rw [if_pos hv] at hok; simp [EINVAL] at hok

/-! ## Slots in use stay where they are -/

theorem fill_first_free_keeps (new : attached_proto) (l : List attached_proto) :
    ∀ (i : Nat) (s : attached_proto), l[i]? = some s → s.used = true →
      (fill_first_free new l)[i]? = some s := by
  induction l with
  | nil => intro i s h; simp at h
  | cons a rest ih =>
    intro i s h hs
    by_cases ha : a.used = true
    · rw [fill_first_free, if_pos ha]
      cases i with
      | zero => simpa using h
      | succ j =>
        simp only [List.getElem?_cons_succ] at h ⊢
        exact ih j s h hs
    · rw [fill_first_free, if_neg ha]
      cases i with
      | zero =>
        simp only [List.getElem?_cons_zero, Option.some.injEq] at h
        subst h
        exact absurd hs ha
      | succ j => simpa using h

theorem add_one_proto_keeps (tbl : List attached_proto) (proto : Nat) (dd : ifnet_demux_desc)
    (i : Nat) (s : attached_proto) (h : tbl[i]? = some s) (hs : s.used = true) :
    (add_one_proto tbl proto dd).2[i]? = some s := by
  rcases add_one_proto_table tbl proto dd with e | ⟨_, _, _, e⟩
  · rw [e]; exact h
  · rw [e]; exact fill_first_free_keeps _ _ i s h hs

theorem if_add_proto_ok_keeps (proto : Nat) (desc : List ifnet_demux_desc) :
    ∀ tbl : List attached_proto, (if_add_proto tbl proto desc).1 = 0 →
      ∀ (i : Nat) (s : attached_proto), tbl[i]? = some s → s.used = true →
        (if_add_proto tbl proto desc).2[i]? = some s := by
  induction desc with
  | nil => intro tbl _ i s h _; exact h
  | cons dd rest ih =>
    intro tbl hok i s h hs
    by_cases he : (add_one_proto tbl proto dd).1 = 0
    · simp only [if_add_proto, he, ne_eq, not_true_eq_false, if_false] at hok ⊢
      exact ih _ hok i s (add_one_proto_keeps tbl proto dd i s h hs) hs
    · simp only [if_add_proto, he, ne_eq, not_false_eq_true, if_true] at hok

theorem if_add_proto_ok_bound (proto : Nat) (desc : List ifnet_demux_desc) :
    ∀ tbl : List attached_proto, (if_add_proto tbl proto desc).1 = 0 →
      ∀ dd ∈ desc, valid_desc dd ∧ ∃ s ∈ (if_add_proto tbl proto desc).2,
        s.used = true ∧ s.type = load_u16 dd.data ∧ s.proto = proto := by
  induction desc with
  | nil => intro tbl _ dd hdd; cases hdd
  | cons d rest ih =>
    intro tbl hok dd hdd
    by_cases he : (add_one_proto tbl proto d).1 = 0
    · simp only [if_add_proto, he, ne_eq, not_true_eq_false, if_false] at hok ⊢
      rcases List.mem_cons.mp hdd with rfl | hdd
      · obtain ⟨hv, s, hs, h1, h2, h3⟩ := add_one_proto_ok_bound tbl proto dd he
        refine ⟨hv, s, ?_, h1, h2, h3⟩
        obtain ⟨i, hi⟩ := List.mem_iff_getElem?.mp hs
        exact List.mem_iff_getElem?.mpr ⟨i, if_add_proto_ok_keeps proto rest _ hok i s hi h1⟩
      · exact ih _ hok dd hdd
    · simp only [if_add_proto, he, ne_eq, not_false_eq_true, if_true] at hok

/-! ## A failed `if_add_proto` -/

theorem forall2_fill_first_free {P : attached_proto → attached_proto → Prop}
    {new : attached_proto} (hP : ∀ s0 s, P s0 s → s.used = false → P s0 new) :
    ∀ {l0 l : List attached_proto}, List.Forall₂ P l0 l →
      List.Forall₂ P l0 (fill_first_free new l) := by
  intro l0 l h
  induction h with
  | nil => exact List.Forall₂.nil
  | @cons s0 s r0 r hs _ ih =>
    by_cases hu : s.used = true
    · rw [fill_first_free, if_pos hu]; exact List.Forall₂.cons hs ih
    · rw [fill_first_free, if_neg hu]
      exact List.Forall₂.cons (hP s0 s hs (by simpa using hu)) (by assumption)

theorem grown_add_one (proto : Nat) (dd : ifnet_demux_desc) {l0 l : List attached_proto}
    (h : List.Forall₂ (fun s0 s => s = s0 ∨ (s0.used = false ∧ s.proto = proto)) l0 l) :
    List.Forall₂ (fun s0 s => s = s0 ∨ (s0.used = false ∧ s.proto = proto)) l0
      (add_one_proto l proto dd).2 := by
  rcases add_one_proto_table l proto dd with e | ⟨_, _, _, e⟩
  · rw [e]; exact h
  · rw [e]
    refine forall2_fill_first_free ?_ h
    intro s0 s hs hu
    right
    rcases hs with rfl | ⟨h1, _⟩
    · exact ⟨hu, rfl⟩
    · exact ⟨h1, rfl⟩

theorem grown_del_bindings (proto : Nat) {l0 l : List attached_proto}
    (h : List.Forall₂ (fun s0 s => s = s0 ∨ (s0.used = false ∧ s.proto = proto)) l0 l) :
    bindings (if_del_proto_loop proto l) =
      (bindings l0).filter (fun b => decide (b.2 ≠ proto)) := by
  induction h with
  | nil => rfl
  | @cons s0 s r0 r hs _ ih =>
    unfold bindings at ih ⊢
    rcases hs with rfl | ⟨h1, h2⟩
    · by_cases hp : s.proto = proto
      · cases hu : s.used <;>
          simp [if_del_proto_loop, hp, hu, List.filter_cons, ih]
      · cases hu : s.used <;>
          simp [if_del_proto_loop, hp, hu, List.filter_cons, ih]
    · simp [if_del_proto_loop, h1, h2, List.filter_cons, ih]

theorem if_add_proto_fail_bindings (proto : Nat) (desc : List ifnet_demux_desc)
    (l0 : List attached_proto) :
    ∀ l : List attached_proto,
      List.Forall₂ (fun s0 s => s = s0 ∨ (s0.used = false ∧ s.proto = proto)) l0 l →
      (if_add_proto l proto desc).1 ≠ 0 →
      bindings (if_add_proto l proto desc).2 =
        (bindings l0).filter (fun b => decide (b.2 ≠ proto)) := by
  induction desc with
  | nil => intro l _ he; exact absurd rfl he
  | cons dd rest ih =>
    intro l h he
    by_cases h1 : (add_one_proto l proto dd).1 = 0
    · simp only [if_add_proto, h1, ne_eq, not_true_eq_false, if_false] at he ⊢
      exact ih _ (grown_add_one proto dd h) he
    · simp only [if_add_proto, h1, ne_eq, not_false_eq_true, if_true, if_del_proto]
      exact grown_del_bindings proto (grown_add_one proto dd h)

theorem forall2_self {P : attached_proto → attached_proto → Prop}
    (hP : ∀ s, P s s) : ∀ l : List attached_proto, List.Forall₂ P l l := by
  intro l
  induction l with
  | nil => exact List.Forall₂.nil
  | cons a rest ih => exact List.Forall₂.cons (hP a) ih

/-! ## Adding the same pair a second time -/

theorem first_match_fill (t h : Nat) (l : List attached_proto)
    (hm : first_match t l = none) (hf : first_free_index l ≠ none) :
    first_match t (fill_first_free { used := true, type := t, proto := h } l) =
      some { used := true, type := t, proto := h } := by
  induction l with
  | nil => simp [first_free_index] at hf
  | cons a rest ih =>
    by_cases ha : a.used = true
    · have hna : ¬ (a.used = true ∧ a.type = t) := by
        intro hc
        rw [first_match, if_pos hc] at hm
        cases hm
      rw [first_match, if_neg hna] at hm
      have hr : first_free_index rest ≠ none := by
        intro hc
        apply hf
        simp [first_free_index, ha, hc]
      rw [fill_first_free, if_pos ha, first_match, if_neg hna]
      exact ih hm hr
    · rw [fill_first_free, if_neg ha, first_match, if_pos ⟨rfl, rfl⟩]

theorem add_one_proto_again (tbl : List attached_proto) (h : Nat) (dd : ifnet_demux_desc)
    (hok : (add_one_proto tbl h dd).1 = 0) :
    add_one_proto (add_one_proto tbl h dd).2 h dd = (0, (add_one_proto tbl h dd).2) := by
  have hv : valid_desc dd := (add_one_proto_ok_bound tbl h dd hok).1
  have hfirst : ∀ l : List attached_proto, (∃ s, first_match (load_u16 dd.data) l = some s ∧
      s.proto = h) → add_one_proto l h dd = (0, l) := by
    rintro l ⟨s, hs, hp⟩
    rw [add_one_proto_eq, if_neg (not_not.mpr hv), hs]
    simp [hp]
  rcases add_one_proto_table tbl h dd with e | ⟨_, hm, hf, e⟩
  · rw [e]
    apply hfirst
    rw [add_one_proto_eq, if_neg (not_not.mpr hv)] at hok
    cases hm : first_match (load_u16 dd.data) tbl with
    | some s =>
      rw [hm] at hok
      by_cases hp : s.proto = h
      · exact ⟨s, rfl, hp⟩
      · simp [hp, EEXIST] at hok
    | none =>
      rw [hm] at hok
      cases hk : first_free_index tbl with
      | none => rw [hk] at hok; simp [ENOBUFS] at hok
      | some k =>
        have hne : (add_one_proto tbl h dd).2 ≠ tbl := by
          rw [add_one_proto_eq, if_neg (not_not.mpr hv), hm, hk]
          intro hc
          have hmem : ({ used := true, type := load_u16 dd.data, proto := h } : attached_proto)
              ∈ tbl := by
            have := @new_mem_fill_first_free
              { used := true, type := load_u16 dd.data, proto := h } tbl (by simp [hk])
            rwa [show fill_first_free { used := true, type := load_u16 dd.data, proto := h } tbl
              = tbl from hc] at this
          exact first_match_none.mp hm _ hmem rfl rfl
        exact absurd e hne
  · rw [e]
    exact hfirst _ ⟨_, first_match_fill _ h tbl hm hf, rfl⟩

/-! ## Counting the slots that hold a type -/

theorem countP_type_of_unique {l : List attached_proto} (hu : unique_types l)
    {s : attached_proto} (hs : s ∈ l) (h1 : s.used = true) :
    l.countP (fun x => x.used && decide (x.type = s.type)) = 1 := by
  unfold unique_types at hu
  induction l with
  | nil => cases hs
  | cons a rest ih =>
    rw [List.pairwise_cons] at hu
    by_cases ha : a.used = true ∧ a.type = s.type
    · have hz : rest.countP (fun x => x.used && decide (x.type = s.type)) = 0 := by
        rw [List.countP_eq_zero]
        intro x hx hc
        simp only [Bool.and_eq_true, decide_eq_true_eq] at hc
        exact hu.1 x hx ⟨ha.1, hc.1, ha.2.trans hc.2.symm⟩
      rw [List.countP_cons, hz]
      simp [ha.1, ha.2]
    · have hne : s ≠ a := fun e => ha (e ▸ ⟨h1, rfl⟩)
      have hmem : s ∈ rest := by
        rcases List.mem_cons.mp hs with e | m
        · exact absurd e hne
        · exact m
      have hf : (a.used && decide (a.type = s.type)) = false := by
        rw [Bool.and_eq_false_iff]
        by_cases hau : a.used = true
        · right; simpa using fun h => ha ⟨hau, h⟩
        · left; simpa using hau
      rw [List.countP_cons, ih hu.2 hmem, hf]
      simp

/-! ## `memcmp` and the header fields -/

theorem memcmp_eq_zero_iff : ∀ (n : Nat) (a b : List Nat), a.length = n → b.length = n →
    (memcmp a b n = 0 ↔ a = b) := by
  intro n
  induction n with
  | zero =>
    intro a b ha hb
    rw [List.length_eq_zero] at ha hb
    simp [memcmp, ha, hb]
  | succ k ih =>
    intro a b ha hb
    cases a with
    | nil => simp at ha
    | cons x xs =>
      cases b with
      | nil => simp at hb
      | cons y ys =>
        simp only [List.length_cons, Nat.add_right_cancel_iff] at ha hb
        by_cases hxy : x = y
        · simp [memcmp, hxy, ih xs ys ha hb]
        · have : ¬ ((x : Int) - (y : Int) = 0) := by omega
          simp [memcmp, hxy, this]

theorem ether_dhost_append (d rest : List Nat) (hd : d.length = 6) :
    ether_dhost (d ++ rest) = d := by
  unfold ether_dhost ETHER_ADDR_LEN
  rw [← hd, List.take_left]

theorem if_demux_classify_eq (a : List Nat) (m : mbuf) (d rest : List Nat)
    (hd : d.length = 6) (ha : a.length = 6) :
    if_demux_classify a m (d ++ rest) =
      match spec_flag (spec_classify d a) with
      | some f => mbuf_setflags_mask m f f
      | none => m := by
  have hb : memcmp ETHER_BROADCAST_ADDR d ETHER_ADDR_LEN = 0 ↔ d = ETHER_BROADCAST_ADDR := by
    exact (memcmp_eq_zero_iff 6 ETHER_BROADCAST_ADDR d rfl hd).trans eq_comm
  have hl : memcmp a d ETHER_ADDR_LEN = 0 ↔ d = a := by
    exact (memcmp_eq_zero_iff 6 a d ha hd).trans eq_comm
  have hbit : d.headD 0 &&& 1 = d.headD 0 % 2 := Nat.and_one_is_mod _
  unfold if_demux_classify spec_classify
  rw [ether_dhost_append d rest hd, hbit]
  by_cases h1 : d = ETHER_BROADCAST_ADDR
  · subst h1
    simp [ETHER_BROADCAST_ADDR, memcmp, ETHER_ADDR_LEN, spec_flag]
  · by_cases h2 : d.headD 0 % 2 = 1
    · have h2' : d.headD 0 % 2 ≠ 0 := by omega
      rw [if_pos h2', if_neg (mt hb.mp h1), if_neg h1, if_pos h2]
      rfl
    · have h2' : ¬ (d.headD 0 % 2 ≠ 0) := by omega
      rw [if_neg h2', if_neg h1, if_neg h2]
      by_cases h3 : d = a
      · rw [if_neg (not_not.mpr (hl.mpr h3)), if_pos h3]
        rfl
      · rw [if_pos (mt hl.mp h3), if_neg h3]
        rfl

/-! ## Filling a table of free slots -/

theorem if_del_proto_loop_length (proto : Nat) (l : List attached_proto) :
    (if_del_proto_loop proto l).length = l.length := by
  rw [if_del_proto_loop_eq_map, List.length_map]

theorem fill_first_free_length (new : attached_proto) (l : List attached_proto) :
    (fill_first_free new l).length = l.length := by
  induction l with
  | nil => rfl
  | cons a rest ih =>
    by_cases ha : a.used = true
    · rw [fill_first_free, if_pos ha, List.length_cons, ih, List.length_cons]
    · rw [fill_first_free, if_neg ha, List.length_cons, List.length_cons]

theorem countP_free_fill (new : attached_proto) (hn : new.used = true)
    (l : List attached_proto) (hf : first_free_index l ≠ none) :
    (fill_first_free new l).countP (fun s => !s.used) + 1 = l.countP (fun s => !s.used) := by
  induction l with
  | nil => simp [first_free_index] at hf
  | cons a rest ih =>
    by_cases ha : a.used = true
    · have hr : first_free_index rest ≠ none := by
        intro hc
        apply hf
        simp [first_free_index, ha, hc]
      rw [fill_first_free, if_pos ha, List.countP_cons, List.countP_cons, ← ih hr]
      simp [ha]
    · have ha' : a.used = false := by simpa using ha
      rw [fill_first_free, if_neg ha, List.countP_cons, List.countP_cons]
      simp [ha', hn]

theorem first_free_index_ne_none_of_countP {l : List attached_proto}
    (h : 0 < l.countP (fun s => !s.used)) : first_free_index l ≠ none := by
  intro hc
  rw [first_free_index_none] at hc
  have : l.countP (fun s => !s.used) = 0 := by
    rw [List.countP_eq_zero]
    intro x hx
    simp [hc x hx]
  omega

theorem all_used_of_countP {l : List attached_proto}
    (h : l.countP (fun s => !s.used) = 0) : ∀ s ∈ l, s.used = true := by
  rw [List.countP_eq_zero] at h
  intro s hs
  simpa using h s hs

theorem if_add_proto_append (proto : Nat) (ds ds' : List ifnet_demux_desc) :
    ∀ tbl : List attached_proto, (if_add_proto tbl proto ds).1 = 0 →
      if_add_proto tbl proto (ds ++ ds') =
        if_add_proto (if_add_proto tbl proto ds).2 proto ds' := by
  induction ds with
  | nil => intro tbl _; rfl
  | cons d rest ih =>
    intro tbl hok
    by_cases he : (add_one_proto tbl proto d).1 = 0
    · simp only [if_add_proto, he, ne_eq, not_true_eq_false, if_false, List.cons_append]
        at hok ⊢
      exact ih _ hok
    · simp only [if_add_proto, he, ne_eq, not_false_eq_true, if_true] at hok

/-- Attaching as many new types as there are free slots succeeds and fills the table. -/
theorem if_add_proto_fills (proto tl : Nat) (ds : List ifnet_demux_desc) :
    ∀ tbl : List attached_proto,
      (∀ s ∈ tbl, s.used = true →
        s.proto = proto ∧ s.type ≠ tl ∧ ∀ dd ∈ ds, s.type ≠ load_u16 dd.data) →
      (ds.map (fun dd => load_u16 dd.data)).Nodup →
      (∀ dd ∈ ds, valid_desc dd ∧ load_u16 dd.data ≠ tl) →
      tbl.countP (fun s => !s.used) = ds.length →
      (if_add_proto tbl proto ds).1 = 0 ∧
      (if_add_proto tbl proto ds).2.length = tbl.length ∧
      ∀ s ∈ (if_add_proto tbl proto ds).2,
        s.used = true ∧ s.proto = proto ∧ s.type ≠ tl := by
  induction ds with
  | nil =>
    intro tbl hs _ _ hc
    refine ⟨rfl, rfl, ?_⟩
    intro s hmem
    have hu := all_used_of_countP hc s hmem
    exact ⟨hu, (hs s hmem hu).1, (hs s hmem hu).2.1⟩
  | cons d rest ih =>
    intro tbl hs hnd hv hc
    rw [List.map_cons, List.nodup_cons] at hnd
    rw [List.length_cons] at hc
    have hfree : first_free_index tbl ≠ none :=
      first_free_index_ne_none_of_countP (by omega)
    have hmatch : first_match (load_u16 d.data) tbl = none := by
      rw [first_match_none]
      intro x hx hxu
      exact (hs x hx hxu).2.2 d (List.mem_cons_self _ _)
    have hval := (hv d (List.mem_cons_self _ _)).1
    have hadd : add_one_proto tbl proto d =
        (0, fill_first_free { used := true, type := load_u16 d.data, proto := proto } tbl) := by
      rw [add_one_proto_eq, if_neg (not_not.mpr hval), hmatch]
      cases hk : first_free_index tbl with
      | none => exact absurd hk hfree
      | some k => rfl
    have hcount := countP_free_fill
      { used := true, type := load_u16 d.data, proto := proto } rfl tbl hfree
    have hstep := ih
      (fill_first_free { used := true, type := load_u16 d.data, proto := proto } tbl)
      (by
        intro s hmem hsu
        rcases mem_fill_first_free hmem with rfl | hmem
        · refine ⟨rfl, (hv d (List.mem_cons_self _ _)).2, ?_⟩
          intro dd hdd hc2
          exact hnd.1 (List.mem_map.mpr ⟨dd, hdd, hc2.symm⟩)
        · obtain ⟨h1, h2, h3⟩ := hs s hmem hsu
          exact ⟨h1, h2, fun dd hdd => h3 dd (List.mem_cons_of_mem _ hdd)⟩)
      hnd.2 (fun dd hdd => hv dd (List.mem_cons_of_mem _ hdd)) (by omega)
    simp only [if_add_proto, hadd, ne_eq, not_true_eq_false, if_false]
    rw [fill_first_free_length] at hstep
    exact hstep

theorem bindings_length_of_all_used {l : List attached_proto}
    (h : ∀ s ∈ l, s.used = true) : (bindings l).length = l.length := by
  unfold bindings
  rw [List.length_map, List.filter_eq_self.mpr h]

theorem bindings_del_of_all_proto (proto : Nat) {l : List attached_proto}
    (h : ∀ s ∈ l, s.proto = proto) : bindings (if_del_proto_loop proto l) = [] := by
  induction l with
  | nil => rfl
  | cons a rest ih =>
    have ha := h a (List.mem_cons_self _ _)
    have hr := ih (fun s hs => h s (List.mem_cons_of_mem _ hs))
    unfold bindings at hr ⊢
    simp [if_del_proto_loop, ha, List.filter_cons, hr]

/-! ## Sequences of registry calls -/

theorem unique_types_run_calls (calls : List registry_call) :
    ∀ tbl : List attached_proto, unique_types tbl → unique_types (run_calls tbl calls) := by
  induction calls with
  | nil => intro tbl hu; exact hu
  | cons c cs ih =>
    intro tbl hu
    cases c with
    | add proto desc => exact ih _ (unique_types_if_add proto desc tbl hu)
    | del proto => exact ih _ (unique_types_del hu proto)

/-! ## The protocol table: `if_add_proto`, `if_del_proto`, `add_one_proto` -/

/-- C1. Uniqueness invariant of the protocol table: when no two in-use slots of a table
hold the same ethertype, the same is true after any finite sequence of `if_add_proto` calls
(any handle, any descriptor list, successful or failed) and `if_del_proto` calls. In
particular it is true after any such sequence started on the empty table, of any capacity. -/
theorem uniqueness_invariant (tbl : List attached_proto) (calls : List registry_call)
    (hu : unique_types tbl) :
    unique_types (run_calls tbl calls) ∧
    ∀ n : Nat, unique_types (run_calls (List.replicate n free_slot) calls) :=
  ⟨unique_types_run_calls calls tbl hu,
   fun n => unique_types_run_calls calls _ (unique_types_replicate_free n 0 0)⟩

/-- Witness of C1: started on a table that already binds the type 0x0800 to handle 5, two
handles compete for that type, a list with a rejected descriptor fails and is rolled back, and
a handle is detached. -/
theorem uniqueness_invariant_witness :
    unique_types ({ used := true, type := 0x0800, proto := 5 } :: List.replicate 7 free_slot) ∧
    unique_types (run_calls
      ({ used := true, type := 0x0800, proto := 5 } :: List.replicate 7 free_slot)
      [.add 5 [etype2_desc 0 8, etype2_desc 6 8], .add 6 [etype2_desc 0 8],
       .add 7 [etype2_desc 0x86 0xdd, { type := 1, data := [], datalen := 0 }],
       .del 5, .add 6 [etype2_desc 0 8]]) :=
  ⟨by decide, (uniqueness_invariant _ _ (by decide)).1⟩

/-- C2, as stated, is false: handle 5 holds the type 0x0800 and asks for two more types, with
data bytes 08 06 and 86 dd; the second one (read as 0xdd86) belongs to handle 6, the call
fails with `EEXIST`, and afterwards the binding (0x0800, 5) that was in use before the call is
no longer in use. -/
theorem failed_attach_not_restored :
    ¬ (∀ (tbl : List attached_proto) (h : Nat) (desc : List ifnet_demux_desc),
        (if_add_proto tbl h desc).1 ≠ 0 → bindings (if_add_proto tbl h desc).2 = bindings tbl) := by
  intro H
  have h := H [{ used := true, type := 0x0800, proto := 5 },
               { used := true, type := 0xdd86, proto := 6 }, free_slot, free_slot] 5
             [etype2_desc 0x08 0x06, etype2_desc 0x86 0xdd] (by decide)
  revert h
  decide

/-- C2, amended. When `if_add_proto(h, desc)` returns an error, the in-use bindings after the
call are exactly the bindings that were in use before the call and whose handle is not `h`,
in the same slot order: every binding added during the call is gone, and every binding of
another handle is still in use. -/
theorem failed_attach_bindings (tbl : List attached_proto) (h : Nat)
    (desc : List ifnet_demux_desc) (herr : (if_add_proto tbl h desc).1 ≠ 0) :
    bindings (if_add_proto tbl h desc).2 = (bindings tbl).filter (fun b => decide (b.2 ≠ h)) :=
  if_add_proto_fail_bindings h desc tbl tbl (forall2_self (fun _ => Or.inl rfl) tbl) herr

/-- Witness of the amended C2: handle 7 gets a first type, then asks for the type of handle 6
and fails; the bindings of handles 5 and 6 are what is left. -/
theorem failed_attach_bindings_witness :
    (if_add_proto [{ used := true, type := 0x0800, proto := 5 },
        { used := true, type := 0xdd86, proto := 6 }, free_slot, free_slot] 7
        [etype2_desc 0x08 0x06, etype2_desc 0x86 0xdd]).1 = EEXIST ∧
    bindings (if_add_proto [{ used := true, type := 0x0800, proto := 5 },
        { used := true, type := 0xdd86, proto := 6 }, free_slot, free_slot] 7
        [etype2_desc 0x08 0x06, etype2_desc 0x86 0xdd]).2 = [(0x0800, 5), (0xdd86, 6)] :=
  ⟨by decide, (failed_attach_bindings _ 7 _ (by decide)).trans (by decide)⟩

/-- C3. A successful attach binds every requested type: on a table with the uniqueness
invariant, when `if_add_proto(h, desc)` returns 0 for a list of valid descriptors, every
ethertype of the list is held by an in-use slot whose handle is `h`, the lookup of `if_demux`
resolves it to `h`, and every slot that was in use before the call is unchanged. -/
theorem successful_attach (tbl : List attached_proto) (h : Nat) (desc : List ifnet_demux_desc)
    (hu : unique_types tbl) (_hv : ∀ dd ∈ desc, valid_desc dd)
    (hok : (if_add_proto tbl h desc).1 = 0) :
    (∀ dd ∈ desc,
      (∃ s ∈ (if_add_proto tbl h desc).2,
        s.used = true ∧ s.type = load_u16 dd.data ∧ s.proto = h) ∧
      if_demux_find (load_u16 dd.data) (if_add_proto tbl h desc).2 = some h) ∧
    (∀ (i : Nat) (s : attached_proto), tbl[i]? = some s → s.used = true →
      (if_add_proto tbl h desc).2[i]? = some s) := by
  refine ⟨?_, if_add_proto_ok_keeps h desc tbl hok⟩
  intro dd hdd
  obtain ⟨_, s, hs, h1, h2, h3⟩ := if_add_proto_ok_bound h desc tbl hok dd hdd
  refine ⟨⟨s, hs, h1, h2, h3⟩, ?_⟩
  rw [if_demux_find_eq, ← h2, first_match_of_unique (unique_types_if_add h desc tbl hu) hs h1]
  simp [h3]

/-- Witness of C3: handle 5 already holds the type with data bytes 08 00 and attaches the
types with bytes 08 06 and 08 00, next to the type of handle 6. -/
theorem successful_attach_witness :
    (if_add_proto [{ used := true, type := 0xdd86, proto := 6 }, free_slot,
        { used := true, type := 0x0008, proto := 5 }, free_slot] 5
        [etype2_desc 0x08 0x06, etype2_desc 0x08 0x00]).1 = 0 ∧
    if_demux_find (load_u16 [0x08, 0x06])
      (if_add_proto [{ used := true, type := 0xdd86, proto := 6 }, free_slot,
        { used := true, type := 0x0008, proto := 5 }, free_slot] 5
        [etype2_desc 0x08 0x06, etype2_desc 0x08 0x00]).2 = some 5 :=
  ⟨by decide,
   ((successful_attach _ 5 [etype2_desc 0x08 0x06, etype2_desc 0x08 0x00] (by decide)
      (by decide) (by decide)).1 (etype2_desc 0x08 0x06) (by decide)).2⟩

/-- C4. Outcome of adding one binding, on a table with the uniqueness invariant: a descriptor
that is not `DLIL_DESC_ETYPE2` with `datalen` 2 gives `EINVAL`; otherwise, with `t` the
ethertype of the descriptor, the result is `EEXIST` exactly when an in-use slot holds `t` with
another handle, `ENOBUFS` exactly when no in-use slot holds `t` and every slot is in use, and
0 in all remaining cases. An error leaves the table unchanged. -/
theorem add_one_proto_outcome (tbl : List attached_proto) (h : Nat) (dd : ifnet_demux_desc)
    (hu : unique_types tbl) :
    (¬ valid_desc dd → (add_one_proto tbl h dd).1 = EINVAL) ∧
    (valid_desc dd →
      ((add_one_proto tbl h dd).1 = EEXIST ↔
        ∃ s ∈ tbl, s.used = true ∧ s.type = load_u16 dd.data ∧ s.proto ≠ h) ∧
      ((add_one_proto tbl h dd).1 = ENOBUFS ↔
        (∀ s ∈ tbl, s.used = true → s.type ≠ load_u16 dd.data) ∧ ∀ s ∈ tbl, s.used = true) ∧
      ((add_one_proto tbl h dd).1 ≠ EEXIST → (add_one_proto tbl h dd).1 ≠ ENOBUFS →
        (add_one_proto tbl h dd).1 = 0)) ∧
    ((add_one_proto tbl h dd).1 ≠ 0 → (add_one_proto tbl h dd).2 = tbl) := by
  refine ⟨?_, ?_, add_one_proto_error_table tbl h dd⟩
  · intro hv
    rw [add_one_proto_eq, if_pos hv]
  · intro hv
    rw [add_one_proto_eq, if_neg (not_not.mpr hv)]
    cases hm : first_match (load_u16 dd.data) tbl with
    | some s =>
      obtain ⟨h1, h2, h3⟩ := first_match_some hm
      have hnone : ¬ (∀ x ∈ tbl, x.used = true → x.type ≠ load_u16 dd.data) :=
        fun hc => hc s h1 h2 h3
      by_cases hp : s.proto = h
      · dsimp only
        rw [if_pos hp]
        refine ⟨⟨fun e => by simp [EEXIST] at e, ?_⟩,
          ⟨fun e => by simp [ENOBUFS] at e, fun hc => absurd hc.1 hnone⟩, fun _ _ => rfl⟩
        rintro ⟨x, hx, hx1, hx2, hx3⟩
        have : x = s := unique_types_mem hu hx h1 hx1 h2 (hx2.trans h3.symm)
        exact absurd (this ▸ hp) hx3
      · dsimp only
        rw [if_neg hp]
        refine ⟨⟨fun _ => ⟨s, h1, h2, h3, hp⟩, fun _ => rfl⟩,
          ⟨fun e => by simp [EEXIST, ENOBUFS] at e, fun hc => absurd hc.1 hnone⟩,
          fun hc => absurd rfl hc⟩
    | none =>
      have hnone := first_match_none.mp hm
      have hno : ¬ ∃ s ∈ tbl, s.used = true ∧ s.type = load_u16 dd.data ∧ s.proto ≠ h := by
        rintro ⟨x, hx, hx1, hx2, _⟩
        exact hnone x hx hx1 hx2
      cases hk : first_free_index tbl with
      | none =>
        refine ⟨⟨fun e => by simp [EEXIST, ENOBUFS] at e, fun hc => absurd hc hno⟩,
          ⟨fun _ => ⟨hnone, first_free_index_none.mp hk⟩, fun _ => rfl⟩,
          fun _ hc => absurd rfl hc⟩
      | some k =>
        have hfull : ¬ ∀ s ∈ tbl, s.used = true := by
          intro hc
          rw [first_free_index_none.mpr hc] at hk
          cases hk
        refine ⟨⟨fun e => by simp [EEXIST] at e, fun hc => absurd hc hno⟩,
          ⟨fun e => by simp [ENOBUFS] at e, fun hc => absurd hc.2 hfull⟩, fun _ _ => rfl⟩

/-- Witness of C4: on the full two-slot table whose types belong to handle 6, handle 5 asking
for the first of them gets `EEXIST` and asking for a type that is not bound gets `ENOBUFS`. -/
theorem add_one_proto_outcome_witness :
    (add_one_proto [{ used := true, type := 0x0008, proto := 6 },
        { used := true, type := 0xdd86, proto := 6 }] 5 (etype2_desc 0x08 0x00)).1 = EEXIST ∧
    (add_one_proto [{ used := true, type := 0x0008, proto := 6 },
        { used := true, type := 0xdd86, proto := 6 }] 5 (etype2_desc 0x08 0x06)).1 = ENOBUFS :=
  ⟨(((add_one_proto_outcome _ 5 (etype2_desc 0x08 0x00) (by decide)).2.1 (by decide)).1).2
      ⟨{ used := true, type := 0x0008, proto := 6 }, by decide, by decide, by decide, by decide⟩,
   by decide⟩

theorem attach_is_idempotent_of_unique (tbl : List attached_proto) (h : Nat)
    (dd : ifnet_demux_desc) (hu : unique_types tbl) (hv : valid_desc dd) :
    attach_is_idempotent tbl h dd := by
  constructor
  · rintro ⟨s, hs, h1, h2, h3⟩
    rw [add_one_proto_eq, if_neg (not_not.mpr hv), ← h2, first_match_of_unique hu hs h1]
    simp [h3]
  · intro hok
    constructor
    · have hone : if_add_proto tbl h [dd] = add_one_proto tbl h dd := by
        by_cases he : (add_one_proto tbl h dd).1 = 0
        · simp only [if_add_proto, he, ne_eq, not_true_eq_false, if_false]
          rw [← he]
        · simp only [if_add_proto, he, ne_eq, not_false_eq_true, if_true] at hok
      have hfix : ∀ l : List attached_proto, add_one_proto l h dd = (0, l) →
          if_add_proto l h [dd] = (0, l) := by
        intro l e
        simp [if_add_proto, e]
      rw [hone] at hok ⊢
      exact hfix _ (add_one_proto_again tbl h dd hok)
    · obtain ⟨_, s, hs, h1, h2, _⟩ :=
        if_add_proto_ok_bound h [dd] tbl hok dd (List.mem_cons_self _ _)
      rw [← h2]
      exact countP_type_of_unique (unique_types_if_add h [dd] tbl hu) hs h1

/-- C5. Idempotence of attach, on every table the registry can be in: the table reached by
any sequence of `if_add_proto` and `if_del_proto` calls from the zeroed table of any capacity,
and from any table with the uniqueness invariant. On such a table, if an in-use slot already
holds (t, h) then adding (h, t) again returns 0 and leaves the table unchanged; and whenever
`if_add_proto(h, [t])` succeeds, a second call returns 0 and yields the same table as the
first, in which exactly one in-use slot holds `t`. -/
theorem attach_idempotent (calls : List registry_call) (h : Nat) (dd : ifnet_demux_desc)
    (hv : valid_desc dd) :
    (∀ n : Nat, attach_is_idempotent (run_calls (List.replicate n free_slot) calls) h dd) ∧
    (∀ tbl : List attached_proto, unique_types tbl →
      attach_is_idempotent (run_calls tbl calls) h dd) :=
  ⟨fun n => attach_is_idempotent_of_unique _ h dd
      (unique_types_run_calls calls _ (unique_types_replicate_free n 0 0)) hv,
   fun tbl hu => attach_is_idempotent_of_unique _ h dd (unique_types_run_calls calls tbl hu) hv⟩

/-- Witness of C5, with h = 5 and t = 0x0800: on the zeroed table of capacity 8, after handle 6
has attached and detached 0x0806, the second attach of (5, 0x0800) gives the table of the
first, with one slot holding 0x0800. -/
theorem attach_idempotent_witness :
    if_add_proto (if_add_proto (run_calls (List.replicate 8 free_slot)
        [.add 6 [etype2_desc 0x06 0x08], .del 6]) 5 [etype2_desc 0x00 0x08]).2 5
        [etype2_desc 0x00 0x08] =
      (0, { used := true, type := 0x0800, proto := 5 } :: List.replicate 7 free_slot) ∧
    (if_add_proto (run_calls (List.replicate 8 free_slot)
        [.add 6 [etype2_desc 0x06 0x08], .del 6]) 5 [etype2_desc 0x00 0x08]).2.countP
        (fun s => s.used && decide (s.type = 0x0800)) = 1 :=
  ⟨(((attach_idempotent [.add 6 [etype2_desc 0x06 0x08], .del 6] 5 (etype2_desc 0x00 0x08)
      (by decide)).1 8).2 (by decide)).1.trans (by decide),
   (((attach_idempotent [.add 6 [etype2_desc 0x06 0x08], .del 6] 5 (etype2_desc 0x00 0x08)
      (by decide)).1 8).2 (by decide)).2⟩

/-- C6, as stated, is false: on the empty table of capacity 8, one `if_add_proto` call of
handle 5 with 9 distinct ethertypes fails with `ENOBUFS`, but afterwards it is not true that
exactly 8 bindings are in use: the rollback has cleared all of them. -/
theorem capacity_overflow_not_full :
    (if_add_proto (List.replicate 8 free_slot) 5
      [etype2_desc 1 0, etype2_desc 2 0, etype2_desc 3 0, etype2_desc 4 0, etype2_desc 5 0,
       etype2_desc 6 0, etype2_desc 7 0, etype2_desc 8 0, etype2_desc 9 0]).1 = ENOBUFS ∧
    ¬ ((bindings (if_add_proto (List.replicate 8 free_slot) 5
      [etype2_desc 1 0, etype2_desc 2 0, etype2_desc 3 0, etype2_desc 4 0, etype2_desc 5 0,
       etype2_desc 6 0, etype2_desc 7 0, etype2_desc 8 0, etype2_desc 9 0]).2).length = 8) := by
  decide

/-- C6, amended. On a table of capacity N whose slots are all free, a single `if_add_proto`
call with one handle and N+1 pairwise distinct ethertypes (the valid descriptors `ds`, N of
them, followed by `dl`) fails with `ENOBUFS`, and the failure arises on the (N+1)-th: the
first N are added with success and fill the N slots, and `add_one_proto` of the (N+1)-th on
that full table returns `ENOBUFS`. After the call no binding is in use, so that the (N+1)-th
ethertype is not bound. -/
theorem capacity_overflow (tbl : List attached_proto) (h : Nat) (ds : List ifnet_demux_desc)
    (dl : ifnet_demux_desc) (hfree : ∀ s ∈ tbl, s.used = false)
    (hlen : ds.length = tbl.length) (hv : ∀ dd ∈ ds ++ [dl], valid_desc dd)
    (hd : ((ds ++ [dl]).map (fun dd => load_u16 dd.data)).Nodup) :
    (if_add_proto tbl h ds).1 = 0 ∧
    (bindings (if_add_proto tbl h ds).2).length = tbl.length ∧
    (add_one_proto (if_add_proto tbl h ds).2 h dl).1 = ENOBUFS ∧
    (if_add_proto tbl h (ds ++ [dl])).1 = ENOBUFS ∧
    bindings (if_add_proto tbl h (ds ++ [dl])).2 = [] := by
  rw [List.map_append, List.nodup_append] at hd
  obtain ⟨hnd, _, hdisj⟩ := hd
  have hcount : tbl.countP (fun s => !s.used) = ds.length := by
    rw [hlen, List.countP_eq_length]
    intro s hs
    simp [hfree s hs]
  obtain ⟨hok, hlen2, hall⟩ := if_add_proto_fills h (load_u16 dl.data) ds tbl
    (fun s hs hu => by rw [hfree s hs] at hu; cases hu) hnd
    (fun dd hdd => ⟨hv dd (List.mem_append_left _ hdd), fun hc =>
      hdisj (List.mem_map.mpr ⟨dd, hdd, hc⟩) (by simp)⟩) hcount
  have hlast : add_one_proto (if_add_proto tbl h ds).2 h dl =
      (ENOBUFS, (if_add_proto tbl h ds).2) := by
    have hm : first_match (load_u16 dl.data) (if_add_proto tbl h ds).2 = none :=
      first_match_none.mpr (fun x hx _ => (hall x hx).2.2)
    have hk : first_free_index (if_add_proto tbl h ds).2 = none :=
      first_free_index_none.mpr (fun x hx => (hall x hx).1)
    rw [add_one_proto_eq, if_neg (not_not.mpr (hv dl (by simp))), hm, hk]
  have hne : ENOBUFS ≠ 0 := by decide
  refine ⟨hok, ?_, ?_, ?_, ?_⟩
  · rw [bindings_length_of_all_used (fun s hs => (hall s hs).1), hlen2]
  · rw [hlast]
  · rw [if_add_proto_append h ds [dl] tbl hok]
    simp only [if_add_proto, hlast, ne_eq, hne, not_false_eq_true, if_true]
  · rw [if_add_proto_append h ds [dl] tbl hok]
    simp only [if_add_proto, hlast, ne_eq, hne, not_false_eq_true, if_true, if_del_proto]
    exact bindings_del_of_all_proto h (fun s hs => (hall s hs).2.1)

/-- Witness of the amended C6, on the empty table of capacity 3 with four ethertypes. -/
theorem capacity_overflow_witness :
    (if_add_proto (List.replicate 3 free_slot) 5
      [etype2_desc 0x08 0x00, etype2_desc 0x08 0x06, etype2_desc 0x86 0xdd]).1 = 0 ∧
    (bindings (if_add_proto (List.replicate 3 free_slot) 5
      [etype2_desc 0x08 0x00, etype2_desc 0x08 0x06, etype2_desc 0x86 0xdd]).2).length = 3 ∧
    (add_one_proto (if_add_proto (List.replicate 3 free_slot) 5
      [etype2_desc 0x08 0x00, etype2_desc 0x08 0x06, etype2_desc 0x86 0xdd]).2 5
      (etype2_desc 0x80 0x35)).1 = ENOBUFS ∧
    (if_add_proto (List.replicate 3 free_slot) 5
      ([etype2_desc 0x08 0x00, etype2_desc 0x08 0x06, etype2_desc 0x86 0xdd] ++
        [etype2_desc 0x80 0x35])).1 = ENOBUFS ∧
    bindings (if_add_proto (List.replicate 3 free_slot) 5
      ([etype2_desc 0x08 0x00, etype2_desc 0x08 0x06, etype2_desc 0x86 0xdd] ++
        [etype2_desc 0x80 0x35])).2 = [] :=
  capacity_overflow (List.replicate 3 free_slot) 5
    [etype2_desc 0x08 0x00, etype2_desc 0x08 0x06, etype2_desc 0x86 0xdd]
    (etype2_desc 0x80 0x35) (by decide) (by decide) (by decide) (by decide)

/-- C7. Detach: `if_del_proto(h)` returns 0 on every table (also when no slot has handle
`h`); afterwards no in-use slot has handle `h`; the table has the same number of slots, and
every slot whose handle differs from `h` is unchanged. -/
theorem detach_clears_handle (tbl : List attached_proto) (h : Nat) :
    (if_del_proto tbl h).1 = 0 ∧
    (∀ s ∈ (if_del_proto tbl h).2, s.used = true → s.proto ≠ h) ∧
    (if_del_proto tbl h).2.length = tbl.length ∧
    (∀ (i : Nat) (s : attached_proto), tbl[i]? = some s → s.proto ≠ h →
      (if_del_proto tbl h).2[i]? = some s) := by
  refine ⟨rfl, ?_, if_del_proto_loop_length h tbl, ?_⟩
  · intro s hs hu
    simp only [if_del_proto, if_del_proto_loop_eq_map, List.mem_map] at hs
    obtain ⟨x, _, rfl⟩ := hs
    by_cases hx : x.proto = h
    · simp [hx] at hu
    · simp [hx]
  · intro i s hi hp
    simp only [if_del_proto, if_del_proto_loop_eq_map, List.getElem?_map, hi, Option.map_some',
      if_neg hp]

/-- Witness of C7: detaching handle 5 clears its two slots, one of them already free, and
leaves the slot of handle 6 as it was; detaching it a second time changes nothing. -/
theorem detach_witness :
    (if_del_proto [{ used := true, type := 0x0008, proto := 5 },
        { used := true, type := 0xdd86, proto := 6 },
        { used := false, type := 0x0608, proto := 5 }] 5).2 =
      [{ used := false, type := 0x0008, proto := 5 },
        { used := true, type := 0xdd86, proto := 6 },
        { used := false, type := 0x0608, proto := 5 }] ∧
    (if_del_proto [{ used := false, type := 0x0008, proto := 5 },
        { used := true, type := 0xdd86, proto := 6 },
        { used := false, type := 0x0608, proto := 5 }] 5).2[1]? =
      some { used := true, type := 0xdd86, proto := 6 } :=
  ⟨by decide,
   (detach_clears_handle [{ used := false, type := 0x0008, proto := 5 },
        { used := true, type := 0xdd86, proto := 6 },
        { used := false, type := 0x0608, proto := 5 }] 5).2.2.2 1
      { used := true, type := 0xdd86, proto := 6 } (by decide) (by decide)⟩

/-! ## The demultiplexer: `if_demux` -/

/-- C8. Destination classification follows the priority order of the specification: for a
6-byte destination `d` at the start of the header and the 6-byte interface address `a`, on a
frame of at least Ethernet-header length, `if_demux` sets `MBUF_BCAST` if `d` is the
broadcast address, otherwise `MBUF_MCAST` if the low-order bit of `d[0]` is set, otherwise no
flag if `d = a`, otherwise `MBUF_PROMISC`. The code tests the group bit first and reaches the
same result as this broadcast-first rule. -/
theorem demux_classification (tbl : List attached_proto) (a d rest : List Nat) (m : mbuf)
    (proto : Nat) (hd : d.length = 6) (ha : a.length = 6)
    (hm : sizeof_ether_header ≤ m.len) :
    (if_demux tbl a m (d ++ rest) proto).2.1 =
      match spec_flag (spec_classify d a) with
      | some f => mbuf_setflags_mask m f f
      | none => m := by
  have hlt : ¬ m.len < sizeof_ether_header := by omega
  unfold if_demux
  rw [if_neg hlt, ← if_demux_classify_eq a m d rest hd ha]
  cases if_demux_find (ether_type (d ++ rest)) tbl <;> rfl

/-- Witness of C8: FF:FF:FF:FF:FF:FF is Broadcast and the frame gets `MBUF_BCAST`;
01:00:5E:00:00:01 is Multicast and the frame gets `MBUF_MCAST`. -/
theorem demux_classification_witness :
    (spec_classify [0xff, 0xff, 0xff, 0xff, 0xff, 0xff] [0x02, 0x11, 0x22, 0x33, 0x44, 0x55] =
      classification.Broadcast ∧
     (if_demux [] [0x02, 0x11, 0x22, 0x33, 0x44, 0x55] { len := 60, flags := 0 }
      ([0xff, 0xff, 0xff, 0xff, 0xff, 0xff] ++ [0x02, 0, 0, 0, 0, 1, 0x08, 0x00]) 0).2.1 =
      { len := 60, flags := MBUF_BCAST }) ∧
    (spec_classify [0x01, 0x00, 0x5e, 0x00, 0x00, 0x01] [0x02, 0x11, 0x22, 0x33, 0x44, 0x55] =
      classification.Multicast ∧
     (if_demux [] [0x02, 0x11, 0x22, 0x33, 0x44, 0x55] { len := 60, flags := 0 }
      ([0x01, 0x00, 0x5e, 0x00, 0x00, 0x01] ++ [0x02, 0, 0, 0, 0, 1, 0x08, 0x00]) 0).2.1 =
      { len := 60, flags := MBUF_MCAST }) :=
  ⟨⟨by decide,
    (demux_classification [] [0x02, 0x11, 0x22, 0x33, 0x44, 0x55]
      [0xff, 0xff, 0xff, 0xff, 0xff, 0xff] [0x02, 0, 0, 0, 0, 1, 0x08, 0x00]
      { len := 60, flags := 0 } 0 (by decide) (by decide) (by decide)).trans (by decide)⟩,
   ⟨by decide,
    (demux_classification [] [0x02, 0x11, 0x22, 0x33, 0x44, 0x55]
      [0x01, 0x00, 0x5e, 0x00, 0x00, 0x01] [0x02, 0, 0, 0, 0, 1, 0x08, 0x00]
      { len := 60, flags := 0 } 0 (by decide) (by decide) (by decide)).trans (by decide)⟩⟩

/-- C9. Protocol resolution in `if_demux`: on a table with the uniqueness invariant and a
frame of at least `sizeof(struct ether_header)` bytes whose `ether_type` is `t`, if an
in-use slot holds `t` then `if_demux` returns 0 and `*proto` is the handle of that slot;
if no in-use slot holds `t` it returns `ENOENT` and `*proto` keeps its value. Slots that are
not in use play no part: a stale type field equal to `t` is never matched. -/
theorem demux_resolution (tbl : List attached_proto) (a : List Nat) (m : mbuf)
    (header : List Nat) (proto : Nat) (hu : unique_types tbl)
    (hm : sizeof_ether_header ≤ m.len) :
    (∀ s ∈ tbl, s.used = true → s.type = ether_type header →
      (if_demux tbl a m header proto).1 = 0 ∧
      (if_demux tbl a m header proto).2.2 = s.proto) ∧
    ((∀ s ∈ tbl, s.used = true → s.type ≠ ether_type header) →
      (if_demux tbl a m header proto).1 = ENOENT ∧
      (if_demux tbl a m header proto).2.2 = proto) := by
  have hlt : ¬ m.len < sizeof_ether_header := by omega
  unfold if_demux
  rw [if_neg hlt, if_demux_find_eq]
  constructor
  · intro s hs h1 h2
    rw [← h2, first_match_of_unique hu hs h1]
    exact ⟨rfl, rfl⟩
  · intro hnone
    rw [first_match_none.mpr hnone]
    exact ⟨rfl, rfl⟩

/-- Witness of C9: slot 0 is not in use but still carries the type 0x0008 of a detached
handle 6; the frame of type 0x0008 is resolved to handle 5 of slot 1. -/
theorem demux_resolution_witness :
    (if_demux [{ used := false, type := 0x0008, proto := 6 },
        { used := true, type := 0x0008, proto := 5 }] [0x02, 0, 0, 0, 0, 1]
      { len := 60, flags := 0 }
      [0x02, 0, 0, 0, 0, 1, 0x02, 0, 0, 0, 0, 2, 0x08, 0x00] 77).1 = 0 ∧
    (if_demux [{ used := false, type := 0x0008, proto := 6 },
        { used := true, type := 0x0008, proto := 5 }] [0x02, 0, 0, 0, 0, 1]
      { len := 60, flags := 0 }
      [0x02, 0, 0, 0, 0, 1, 0x02, 0, 0, 0, 0, 2, 0x08, 0x00] 77).2.2 = 5 :=
  (demux_resolution _ [0x02, 0, 0, 0, 0, 1] { len := 60, flags := 0 }
    [0x02, 0, 0, 0, 0, 1, 0x02, 0, 0, 0, 0, 2, 0x08, 0x00] 77 (by decide) (by decide)).1
    { used := true, type := 0x0008, proto := 5 } (by decide) (by decide) (by decide)

/-- C10. Short frames are rejected before anything else: when the buffer length is smaller
than `sizeof(struct ether_header)`, for every table, interface address and header bytes,
`if_demux` returns the non-zero value `ENOENT`, leaves `*proto` as it was and leaves the
flags of the frame as they were. -/
theorem demux_short_frame (tbl : List attached_proto) (a : List Nat) (m : mbuf)
    (header : List Nat) (proto : Nat) (hs : m.len < sizeof_ether_header) :
    if_demux tbl a m header proto = (ENOENT, m, proto) ∧ ENOENT ≠ 0 := by
  unfold if_demux
  rw [if_pos hs]
  exact ⟨rfl, by decide⟩

/-- Witness of C10: a 13-byte broadcast frame whose type bytes match an in-use binding. -/
theorem demux_short_frame_witness :
    if_demux [{ used := true, type := 0x0008, proto := 5 }] [0x02, 0, 0, 0, 0, 1]
      { len := 13, flags := 0 }
      [0xff, 0xff, 0xff, 0xff, 0xff, 0xff, 0x02, 0, 0, 0, 0, 2, 0x08, 0x00] 77 =
      (ENOENT, { len := 13, flags := 0 }, 77) :=
  (demux_short_frame _ _ _ _ 77 (by decide)).1

/-! ## The framer -/

theorem read_bytes_of_length (p : List Nat) (n : Nat) (h : p.length = n) :
    read_bytes p n = p := by
  unfold read_bytes
  apply List.ext_getElem
  · simp [h]
  · intro i h1 h2
    simp [List.getD_eq_getElem?_getD, List.getElem?_eq_getElem h2]

theorem read_bytes_length (p : List Nat) (n : Nat) : (read_bytes p n).length = n := by
  simp [read_bytes]

theorem store_load_u16 (t : List Nat) (hl : t.length = 2) (hb : is_bytes t) :
    store_u16 (load_u16 t) = t := by
  match t, hl with
  | [t0, t1], _ =>
    have h0 : t0 < 256 := hb t0 (by simp)
    have h1 : t1 < 256 := hb t1 (by simp)
    simp only [store_u16, load_u16, List.getD_cons_zero, List.getD_cons_succ]
    congr 1
    · omega
    · congr 1
      omega

theorem load_store_u16 (t : List Nat) (hl : t.length = 2) (hb : is_bytes t) (rest : List Nat) :
    load_u16 (store_u16 (load_u16 t) ++ rest) = load_u16 t := by
  rw [store_load_u16 t hl hb]
  match t, hl with
  | [t0, t1], _ => rfl

theorem write_header (F P D S T : List Nat) (hF : F.length = 14) (hD : D.length = 6)
    (hS : S.length = 6) (hT : T.length = 2) :
    write_bytes (write_bytes (write_bytes (F ++ P) 0 D) 6 S) 12 T = D ++ S ++ T ++ P := by
  have e0 : write_bytes (F ++ P) 0 D = D ++ (F.drop 6 ++ P) := by
    unfold write_bytes
    rw [List.take_zero, List.nil_append, Nat.zero_add, hD,
      List.drop_append_of_le_length (by omega)]
  have e1 : write_bytes (D ++ (F.drop 6 ++ P)) 6 S = D ++ S ++ (F.drop 12 ++ P) := by
    unfold write_bytes
    rw [hS, ← hD, List.take_left, hD, show 6 + 6 = D.length + 6 by omega,
      List.drop_append, List.drop_append_of_le_length (by simp; omega), List.drop_drop]
  have e2 : write_bytes (D ++ S ++ (F.drop 12 ++ P)) 12 T = D ++ S ++ T ++ P := by
    unfold write_bytes
    have hDS : (D ++ S).length = 12 := by simp [hD, hS]
    rw [hT, ← hDS, List.take_left, show (D ++ S).length + 2 = (D ++ S).length + 2 from rfl,
      List.drop_append, List.drop_append_of_le_length (by simp; omega), List.drop_drop]
    have : List.drop ((D ++ S).length + 2) F = [] := List.drop_of_length_le (by omega)
    rw [this, List.nil_append]
  rw [e0, e1, e2]

theorem if_framer_ok (S fresh P D T : List Nat) (hD : D.length = 6) (hS : S.length = 6)
    (hT : T.length = 2) (hTb : is_bytes T) :
    if_framer S 0 fresh P D T = (0, D ++ S ++ T ++ P) := by
  simp only [if_framer, mbuf_prepend, ne_eq, not_true_eq_false, if_false, Option.getD_some,
    ETHER_ADDR_LEN, sizeof_ether_header]
  rw [read_bytes_of_length D 6 hD, read_bytes_of_length S 6 hS, store_load_u16 T hT hTb,
    write_header _ P D S T (read_bytes_length _ _) hD hS hT]

/-! ## Bring-up, teardown and module stop -/

set_option maxRecDepth 20000 in
theorem first_byte_bits : ∀ r0 : Nat, r0 < 256 →
    ((r0 &&& 0xfe) ||| 0x02) % 2 = 0 ∧ ((r0 &&& 0xfe) ||| 0x02) / 2 % 2 = 1 ∧
    ((r0 &&& 0xfe) ||| 0x02) / 4 = r0 / 4 := by
  decide

theorem random_lladdr_eq (r0 r1 r2 r3 r4 r5 : Nat) :
    random_lladdr [r0, r1, r2, r3, r4, r5] = [(r0 &&& 0xfe) ||| 0x02, r1, r2, r3, r4, r5] := by
  rfl

theorem first_free_index_spec (l : List attached_proto) :
    ∀ k, first_free_index l = some k →
      k < l.length ∧ (∀ s, l[k]? = some s → s.used = false) ∧
      ∀ j s, j < k → l[j]? = some s → s.used = true := by
  induction l with
  | nil => intro k h; simp [first_free_index] at h
  | cons a rest ih =>
    intro k h
    by_cases ha : a.used = true
    · simp only [first_free_index, ha, if_true, Option.map_eq_some'] at h
      obtain ⟨j, hj, rfl⟩ := h
      obtain ⟨h1, h2, h3⟩ := ih j hj
      refine ⟨by simp; omega, ?_, ?_⟩
      · intro s hs
        rw [List.getElem?_cons_succ] at hs
        exact h2 s hs
      · intro i s hi hs
        cases i with
        | zero =>
          simp only [List.getElem?_cons_zero, Option.some.injEq] at hs
          exact hs ▸ ha
        | succ i' =>
          rw [List.getElem?_cons_succ] at hs
          exact h3 i' s (by omega) hs
    · have ha' : a.used = false := by simpa using ha
      simp only [first_free_index, ha', Bool.false_eq_true, if_false, Option.some.injEq] at h
      subst h
      refine ⟨by simp, ?_, ?_⟩
      · intro s hs
        simp only [List.getElem?_cons_zero, Option.some.injEq] at hs
        exact hs ▸ ha'
      · intro j s hj
        omega

theorem forall2_index {R : attached_proto → attached_proto → Prop} :
    ∀ {a b : List attached_proto}, List.Forall₂ R a b →
      b.length = a.length ∧
      ∀ (i : Nat) (x y : attached_proto), a[i]? = some x → b[i]? = some y → R x y := by
  intro a b h
  induction h with
  | nil => exact ⟨rfl, fun i x y hx => by simp at hx⟩
  | @cons x0 y0 r0 r1 hxy _ ih =>
    refine ⟨by simp [ih.1], ?_⟩
    intro i x y hx hy
    cases i with
    | zero =>
      simp only [List.getElem?_cons_zero, Option.some.injEq] at hx hy
      exact hx ▸ hy ▸ hxy
    | succ j =>
      rw [List.getElem?_cons_succ] at hx hy
      exact ih.2 j x y hx hy

theorem slot_step_mem (h : Nat) (L : List attached_proto) :
    ∀ {a b : List attached_proto}, List.Forall₂ (slot_step h L) a b →
      ∀ x ∈ a, x.used = true → x ∈ b := by
  intro a b hab
  induction hab with
  | nil => intro x hx; cases hx
  | @cons x0 y0 r0 r1 hxy _ ih =>
    intro x hx hu
    rcases List.mem_cons.mp hx with e | m
    · subst e
      rcases hxy with e2 | ⟨hf, _⟩
      · rw [e2]; exact List.mem_cons_self _ _
      · rw [hf] at hu; cases hu
    · exact List.mem_cons_of_mem _ (ih x m hu)

theorem slot_step_add_one (h : Nat) (dd : ifnet_demux_desc) (L l : List attached_proto)
    (hl : List.Forall₂ (slot_step h L) L l) :
    List.Forall₂ (slot_step h L) L (add_one_proto l h dd).2 := by
  rcases add_one_proto_table l h dd with e | ⟨_, hm, _, e⟩
  · rw [e]; exact hl
  · rw [e]
    have hnone : ∀ x ∈ L, x.used = true → x.type ≠ load_u16 dd.data := by
      intro x hx hu
      exact first_match_none.mp hm x (slot_step_mem h L hl x hx hu) hu
    refine forall2_fill_first_free ?_ hl
    intro s0 s hs hu
    right
    rcases hs with e2 | ⟨_, h2, _⟩
    · rw [e2] at hu
      exact ⟨hu, rfl, rfl, hnone⟩
    · rw [hu] at h2; cases h2

theorem if_add_proto_shape (h : Nat) (desc : List ifnet_demux_desc) (L : List attached_proto) :
    ∀ l : List attached_proto, List.Forall₂ (slot_step h L) L l →
      ∃ pre, List.Forall₂ (slot_step h L) L pre ∧
        (((if_add_proto l h desc).1 = 0 ∧ (if_add_proto l h desc).2 = pre) ∨
         ((if_add_proto l h desc).1 ≠ 0 ∧
          (if_add_proto l h desc).2 = if_del_proto_loop h pre)) := by
  induction desc with
  | nil => intro l hl; exact ⟨l, hl, Or.inl ⟨rfl, rfl⟩⟩
  | cons dd rest ih =>
    intro l hl
    have h1 := slot_step_add_one h dd L l hl
    by_cases he : (add_one_proto l h dd).1 = 0
    · simp only [if_add_proto, he, ne_eq, not_true_eq_false, if_false]
      exact ih _ h1
    · simp only [if_add_proto, he, ne_eq, not_false_eq_true, if_true, if_del_proto]
      exact ⟨_, h1, Or.inr ⟨trivial, rfl⟩⟩

theorem slot_step_self (h : Nat) (L : List attached_proto) :
    List.Forall₂ (slot_step h L) L L :=
  forall2_self (fun _ => Or.inl rfl) L

theorem if_del_proto_loop_index (h : Nat) (l : List attached_proto) (i : Nat)
    (y : attached_proto) (hy : (if_del_proto_loop h l)[i]? = some y) :
    ∃ x, l[i]? = some x ∧ y = if x.proto = h then { x with used := false } else x := by
  rw [if_del_proto_loop_eq_map, List.getElem?_map] at hy
  cases hx : l[i]? with
  | none => rw [hx] at hy; cases hy
  | some x =>
    rw [hx] at hy
    simp only [Option.map_some', Option.some.injEq] at hy
    exact ⟨x, rfl, hy.symm⟩

theorem slots_stay_of_step (h : Nat) (L pre : List attached_proto)
    (hp : List.Forall₂ (slot_step h L) L pre) : slots_stay L pre := by
  obtain ⟨hlen, hidx⟩ := forall2_index hp
  refine ⟨hlen, ?_⟩
  intro i s s' hs hs'
  rcases hidx i s s' hs hs' with e | ⟨h1, _, _, h4⟩
  · exact ⟨fun _ => Or.inl e, fun _ => Or.inl e⟩
  · exact ⟨fun hu => (by rw [h1] at hu; cases hu), fun _ => Or.inr ⟨h1, h4⟩⟩

theorem slots_stay_of_step_del (h : Nat) (L pre : List attached_proto)
    (hp : List.Forall₂ (slot_step h L) L pre) : slots_stay L (if_del_proto_loop h pre) := by
  obtain ⟨hlen, hidx⟩ := forall2_index hp
  refine ⟨by rw [if_del_proto_loop_length, hlen], ?_⟩
  intro i s s' hs hs'
  obtain ⟨x, hx, hy⟩ := if_del_proto_loop_index h pre i s' hs'
  have hstep := hidx i s x hs hx
  by_cases hxp : x.proto = h
  · rw [if_pos hxp] at hy
    constructor
    · intro hu
      rcases hstep with e | ⟨h1, _⟩
      · right; rw [hy, e]
      · rw [h1] at hu; cases hu
    · intro hu
      rw [hy] at hu
      cases hu
  · rw [if_neg hxp] at hy
    rcases hstep with e | ⟨_, _, h3, _⟩
    · rw [hy, e]
      exact ⟨fun _ => Or.inl rfl, fun _ => Or.inl rfl⟩
    · exact absurd h3 hxp

theorem slots_stay_if_add (tbl : List attached_proto) (h : Nat)
    (desc : List ifnet_demux_desc) : slots_stay tbl (if_add_proto tbl h desc).2 := by
  obtain ⟨pre, hp, hcase⟩ := if_add_proto_shape h desc tbl tbl (slot_step_self h tbl)
  rcases hcase with ⟨_, e⟩ | ⟨_, e⟩
  · rw [e]; exact slots_stay_of_step h tbl pre hp
  · rw [e]; exact slots_stay_of_step_del h tbl pre hp

/-! ## A framed packet seen by the demultiplexer -/

theorem ether_type_frame (D S T P : List Nat) (hD : D.length = 6) (hS : S.length = 6)
    (hT : T.length = 2) : ether_type (D ++ S ++ T ++ P) = load_u16 T := by
  have hDS : (D ++ S).length = 12 := by simp [hD, hS]
  unfold ether_type
  rw [List.append_assoc, ← hDS, List.drop_left]
  match T, hT with
  | [t0, t1], _ => rfl

theorem if_demux_frame (tbl : List attached_proto) (S D T P : List Nat) (m : mbuf)
    (proto : Nat) (hD : D.length = 6) (hS : S.length = 6) (hT : T.length = 2)
    (hm : sizeof_ether_header ≤ m.len) :
    if_demux tbl S m (D ++ S ++ T ++ P) proto =
      match first_match (load_u16 T) tbl with
      | some s => (0, if_demux_classify S m (D ++ S ++ T ++ P), s.proto)
      | none => (ENOENT, if_demux_classify S m (D ++ S ++ T ++ P), proto) := by
  have hlt : ¬ m.len < sizeof_ether_header := by omega
  unfold if_demux
  rw [if_neg hlt, if_demux_find_eq, ether_type_frame D S T P hD hS hT]
  cases first_match (load_u16 T) tbl <;> rfl

/-! ## The framer: `if_framer` -/

/-- C11. Framer round trip: for a payload `P`, a 6-byte destination `D`, a 2-byte type tag
`T` and the 6-byte interface address `S` read during the call, when `mbuf_prepend` succeeds
`if_framer` returns 0 and yields a buffer of length |P| + 14 whose bytes 0..5 are `D`, bytes
6..11 are `S`, bytes 12..13 are `T` as given, and whose remaining bytes are `P`; dropping
the first 14 bytes gives back `P`. -/
theorem framer_round_trip (S fresh P D T : List Nat) (hD : D.length = 6) (hS : S.length = 6)
    (hT : T.length = 2) (hTb : is_bytes T) :
    (if_framer S 0 fresh P D T).1 = 0 ∧
    (if_framer S 0 fresh P D T).2 = D ++ S ++ T ++ P ∧
    (if_framer S 0 fresh P D T).2.length = P.length + 14 ∧
    (if_framer S 0 fresh P D T).2.take 6 = D ∧
    ((if_framer S 0 fresh P D T).2.drop 6).take 6 = S ∧
    ((if_framer S 0 fresh P D T).2.drop 12).take 2 = T ∧
    (if_framer S 0 fresh P D T).2.drop 14 = P := by
  rw [if_framer_ok S fresh P D T hD hS hT hTb]
  have hDS : (D ++ S).length = 12 := by simp [hD, hS]
  have hDST : (D ++ S ++ T).length = 14 := by simp [hD, hS, hT]
  refine ⟨rfl, rfl, ?_, ?_, ?_, ?_, ?_⟩
  · simp [hD, hS, hT]; omega
  · rw [List.append_assoc, List.append_assoc, ← hD, List.take_left]
  · rw [List.append_assoc, List.append_assoc, ← hD, List.drop_left, hD, ← hS, List.take_left]
  · rw [List.append_assoc, ← hDS, List.drop_left, ← hT, List.take_left]
  · rw [← hDST, List.drop_left]

/-- Witness of C11: the same payload framed twice, the second time after the interface
address was changed; each frame carries the address of its own call. -/
theorem framer_round_trip_witness :
    (if_framer [0x02, 0, 0, 0, 0, 1] 0 [] [0x45, 0x00, 0x00, 0x1c]
      [0xff, 0xff, 0xff, 0xff, 0xff, 0xff] [0x08, 0x00]).2 =
      [0xff, 0xff, 0xff, 0xff, 0xff, 0xff] ++ [0x02, 0, 0, 0, 0, 1] ++ [0x08, 0x00] ++
        [0x45, 0x00, 0x00, 0x1c] ∧
    (if_framer [0x02, 0, 0, 0, 0, 9] 0 [] [0x45, 0x00, 0x00, 0x1c]
      [0xff, 0xff, 0xff, 0xff, 0xff, 0xff] [0x08, 0x00]).2 =
      [0xff, 0xff, 0xff, 0xff, 0xff, 0xff] ++ [0x02, 0, 0, 0, 0, 9] ++ [0x08, 0x00] ++
        [0x45, 0x00, 0x00, 0x1c] :=
  ⟨(framer_round_trip [0x02, 0, 0, 0, 0, 1] [] [0x45, 0x00, 0x00, 0x1c]
      [0xff, 0xff, 0xff, 0xff, 0xff, 0xff] [0x08, 0x00] (by decide) (by decide) (by decide)
      (by decide)).2.1,
   (framer_round_trip [0x02, 0, 0, 0, 0, 9] [] [0x45, 0x00, 0x00, 0x1c]
      [0xff, 0xff, 0xff, 0xff, 0xff, 0xff] [0x08, 0x00] (by decide) (by decide) (by decide)
      (by decide)).2.1⟩

/-- C12. Framer failure path: `if_framer` returns non-zero exactly when `mbuf_prepend`
fails; it then returns the error of `mbuf_prepend`, and the buffer behind `*m` is the one of
before the call, no header byte written. When `mbuf_prepend` succeeds it returns 0. -/
theorem framer_failure (S fresh m D T : List Nat) (err : Nat) :
    ((if_framer S err fresh m D T).1 ≠ 0 ↔ (mbuf_prepend err fresh m sizeof_ether_header).1 ≠ 0) ∧
    ((mbuf_prepend err fresh m sizeof_ether_header).1 ≠ 0 →
      if_framer S err fresh m D T = ((mbuf_prepend err fresh m sizeof_ether_header).1, m)) ∧
    ((mbuf_prepend err fresh m sizeof_ether_header).1 = 0 →
      (if_framer S err fresh m D T).1 = 0) := by
  by_cases he : err = 0
  · subst he
    simp [if_framer, mbuf_prepend]
  · simp [if_framer, mbuf_prepend, he]

/-- Witness of C12: the prepend fails with `ENOMEM`; the call returns `ENOMEM` and the
three payload bytes are untouched. -/
theorem framer_failure_witness :
    if_framer [0x02, 0, 0, 0, 0, 1] ENOMEM [] [0x45, 0x00, 0x00]
      [0xff, 0xff, 0xff, 0xff, 0xff, 0xff] [0x08, 0x00] = (ENOMEM, [0x45, 0x00, 0x00]) :=
  (framer_failure [0x02, 0, 0, 0, 0, 1] [] [0x45, 0x00, 0x00]
    [0xff, 0xff, 0xff, 0xff, 0xff, 0xff] [0x08, 0x00] ENOMEM).2.1 (by decide)

/-! ## Bring-up of the interface -/

/-- C13. Link-address synthesis: for the six random bytes `r0 .. r5` of `read_random`, the
link address that `initialize_interface` hands to `register_interface`, and hands again to
`ifnet_set_lladdr` when the registration succeeded, is `(r0 AND 0xFE) OR 0x02, r1, .., r5`:
in the first byte bit 0 is 0, bit 1 is 1 and the six other bits are those of `r0`; the five
other bytes are the random bytes. -/
theorem lladdr_synthesis (r0 r1 r2 r3 r4 r5 : Nat) (register_ok : Bool) (TAP_MTU : Nat)
    (h0 : r0 < 256) :
    (∀ c ∈ (initialize_interface [r0, r1, r2, r3, r4, r5] register_ok TAP_MTU).2,
      ∀ l b n, (c = iface_call.register_interface l b n ∨ c = iface_call.ifnet_set_lladdr l n) →
        l = [(r0 &&& 0xfe) ||| 0x02, r1, r2, r3, r4, r5]) ∧
    iface_call.register_interface [(r0 &&& 0xfe) ||| 0x02, r1, r2, r3, r4, r5]
        ETHER_BROADCAST_ADDR ETHER_ADDR_LEN ∈
      (initialize_interface [r0, r1, r2, r3, r4, r5] register_ok TAP_MTU).2 ∧
    (register_ok = true →
      iface_call.ifnet_set_lladdr [(r0 &&& 0xfe) ||| 0x02, r1, r2, r3, r4, r5] ETHER_ADDR_LEN ∈
        (initialize_interface [r0, r1, r2, r3, r4, r5] register_ok TAP_MTU).2) ∧
    ((r0 &&& 0xfe) ||| 0x02) % 2 = 0 ∧ ((r0 &&& 0xfe) ||| 0x02) / 2 % 2 = 1 ∧
    ((r0 &&& 0xfe) ||| 0x02) / 4 = r0 / 4 := by
  refine ⟨?_, ?_, ?_, first_byte_bits r0 h0⟩
  · intro c hc l b n hcl
    cases register_ok <;>
      simp only [initialize_interface, random_lladdr_eq, Bool.not_false, Bool.not_true, if_true,
        Bool.false_eq_true, if_false, List.mem_cons, List.cons_append, List.nil_append,
        List.mem_singleton, List.not_mem_nil, or_false] at hc <;>
      rcases hcl with rfl | rfl <;> simp at hc <;> simp [hc]
  · cases register_ok <;> simp [initialize_interface, random_lladdr_eq]
  · intro hr
    subst hr
    simp [initialize_interface, random_lladdr_eq]

/-- Witness of C13: the random bytes FF 01 02 03 04 05 give the address FE 01 02 03 04 05. -/
theorem lladdr_synthesis_witness :
    iface_call.register_interface [0xfe, 1, 2, 3, 4, 5] ETHER_BROADCAST_ADDR ETHER_ADDR_LEN ∈
      (initialize_interface [0xff, 1, 2, 3, 4, 5] true 1500).2 ∧
    iface_call.ifnet_set_lladdr [0xfe, 1, 2, 3, 4, 5] ETHER_ADDR_LEN ∈
      (initialize_interface [0xff, 1, 2, 3, 4, 5] true 1500).2 :=
  ⟨(lladdr_synthesis 0xff 1 2 3 4 5 true 1500 (by decide)).2.1,
   (lladdr_synthesis 0xff 1 2 3 4 5 true 1500 (by decide)).2.2.1 rfl⟩

/-! ## The drop reasons of `if_demux` -/

/-- C14, as stated, is false: a 13-byte frame and a 60-byte frame whose ethertype has no
in-use binding make `if_demux` return the same value, `ENOENT`. -/
theorem demux_drop_reasons_same :
    (if_demux [{ used := true, type := 0x0008, proto := 5 }] [0x02, 0, 0, 0, 0, 1]
      { len := 13, flags := 0 }
      [0x02, 0, 0, 0, 0, 1, 0x02, 0, 0, 0, 0, 2, 0x08, 0x06] 77).1 =
    (if_demux [{ used := true, type := 0x0008, proto := 5 }] [0x02, 0, 0, 0, 0, 1]
      { len := 60, flags := 0 }
      [0x02, 0, 0, 0, 0, 1, 0x02, 0, 0, 0, 0, 2, 0x08, 0x06] 77).1 := by
  decide

/-- C14, amended. `if_demux` reports its two drop reasons with the same value: for a frame
shorter than the Ethernet header and for a full-length frame whose ethertype has no in-use
binding it returns `ENOENT`, and `ENOENT` differs from the success value 0. -/
theorem demux_drop_reasons (tbl tbl' : List attached_proto) (a a' : List Nat) (m m' : mbuf)
    (header header' : List Nat) (proto proto' : Nat)
    (hshort : m.len < sizeof_ether_header) (hfull : sizeof_ether_header ≤ m'.len)
    (hnone : ∀ s ∈ tbl', s.used = true → s.type ≠ ether_type header') :
    (if_demux tbl a m header proto).1 = ENOENT ∧
    (if_demux tbl' a' m' header' proto').1 = ENOENT ∧
    (if_demux tbl a m header proto).1 = (if_demux tbl' a' m' header' proto').1 ∧
    ENOENT ≠ 0 := by
  have h1 : (if_demux tbl a m header proto).1 = ENOENT := by
    unfold if_demux
    rw [if_pos hshort]
  have h2 : (if_demux tbl' a' m' header' proto').1 = ENOENT := by
    have hlt : ¬ m'.len < sizeof_ether_header := by omega
    unfold if_demux
    rw [if_neg hlt, if_demux_find_eq, first_match_none.mpr hnone]
    rfl
  exact ⟨h1, h2, h1.trans h2.symm, by decide⟩

/-- Witness of the amended C14, on the two frames of the counterexample. -/
theorem demux_drop_reasons_witness :
    (if_demux [{ used := true, type := 0x0008, proto := 5 }] [0x02, 0, 0, 0, 0, 1]
      { len := 13, flags := 0 }
      [0x02, 0, 0, 0, 0, 1, 0x02, 0, 0, 0, 0, 2, 0x08, 0x06] 77).1 = ENOENT ∧
    (if_demux [{ used := true, type := 0x0008, proto := 5 }] [0x02, 0, 0, 0, 0, 1]
      { len := 60, flags := 0 }
      [0x02, 0, 0, 0, 0, 1, 0x02, 0, 0, 0, 0, 2, 0x08, 0x06] 77).1 = ENOENT :=
  ⟨(demux_drop_reasons [{ used := true, type := 0x0008, proto := 5 }]
      [{ used := true, type := 0x0008, proto := 5 }] [0x02, 0, 0, 0, 0, 1] [0x02, 0, 0, 0, 0, 1]
      { len := 13, flags := 0 } { len := 60, flags := 0 }
      [0x02, 0, 0, 0, 0, 1, 0x02, 0, 0, 0, 0, 2, 0x08, 0x06]
      [0x02, 0, 0, 0, 0, 1, 0x02, 0, 0, 0, 0, 2, 0x08, 0x06] 77 77
      (by decide) (by decide) (by decide)).1,
   (demux_drop_reasons [{ used := true, type := 0x0008, proto := 5 }]
      [{ used := true, type := 0x0008, proto := 5 }] [0x02, 0, 0, 0, 0, 1] [0x02, 0, 0, 0, 0, 1]
      { len := 13, flags := 0 } { len := 60, flags := 0 }
      [0x02, 0, 0, 0, 0, 1, 0x02, 0, 0, 0, 0, 2, 0x08, 0x06]
      [0x02, 0, 0, 0, 0, 1, 0x02, 0, 0, 0, 0, 2, 0x08, 0x06] 77 77
      (by decide) (by decide) (by decide)).2.1⟩

/-! ## The version probe: `get_os_major_version` -/

/-- C16. Module stop: `tap_module_stop` returns `KMOD_RETURN_FAILURE` exactly when a manager
exists and its `shutdown()` reports failure; the manager is then kept, not deleted, and the
locking primitive is not shut down. In every other case the manager, if there is one, is
deleted after its shutdown succeeded, `mgr` is null, the locking primitive is shut down as
the last step, and the function returns `KMOD_RETURN_SUCCESS`. -/
theorem module_stop (shutdown_ok : Bool) (mgr : Option Nat) :
    ((tap_module_stop shutdown_ok mgr).1 = KMOD_RETURN_FAILURE ↔
      (mgr ≠ none ∧ shutdown_ok = false)) ∧
    ((mgr ≠ none ∧ shutdown_ok = false) →
      (tap_module_stop shutdown_ok mgr).2.1 = mgr ∧
      kmod_call.mgr_delete ∉ (tap_module_stop shutdown_ok mgr).2.2 ∧
      kmod_call.tt_lock_shutdown ∉ (tap_module_stop shutdown_ok mgr).2.2) ∧
    (¬ (mgr ≠ none ∧ shutdown_ok = false) →
      (tap_module_stop shutdown_ok mgr).1 = KMOD_RETURN_SUCCESS ∧
      (tap_module_stop shutdown_ok mgr).2.1 = none ∧
      (tap_module_stop shutdown_ok mgr).2.2 =
        (if mgr ≠ none then [kmod_call.mgr_shutdown, kmod_call.mgr_delete] else []) ++
          [kmod_call.tt_lock_shutdown]) := by
  cases mgr with
  | none => cases shutdown_ok <;> simp [tap_module_stop, KMOD_RETURN_FAILURE, KMOD_RETURN_SUCCESS]
  | some p => cases shutdown_ok <;> simp [tap_module_stop, KMOD_RETURN_FAILURE, KMOD_RETURN_SUCCESS]

/-- Witness of C16: a manager whose shutdown fails stays, and a second stop whose shutdown
succeeds removes it and shuts the locking down. -/
theorem module_stop_witness :
    (tap_module_stop false (some 1)).2.1 = some 1 ∧
    (tap_module_stop true (tap_module_stop false (some 1)).2.1).2.2 =
      [kmod_call.mgr_shutdown, kmod_call.mgr_delete, kmod_call.tt_lock_shutdown] :=
  ⟨((module_stop false (some 1)).2.1 (by decide)).1,
   ((module_stop true (some 1)).2.2 (by decide)).2.2⟩

/-! ## Slot placement -/

/-- C17. Slot placement and stability: when `add_one_proto` adds a new binding (it returns
0 and no in-use slot held the pair), the binding is written into the lowest-index slot that
was not in use and all other slots are unchanged. And none of `add_one_proto`,
`if_add_proto`, `if_del_proto` moves an in-use binding to another index: a slot in use before
the call is afterwards unchanged or only cleared, and a slot in use afterwards is unchanged
or was free and holds a type that no in-use slot held before. -/
theorem slot_placement (tbl : List attached_proto) (h : Nat) (dd : ifnet_demux_desc) :
    ((add_one_proto tbl h dd).1 = 0 →
      (¬ ∃ s ∈ tbl, s.used = true ∧ s.type = load_u16 dd.data ∧ s.proto = h) →
      ∃ k, k < tbl.length ∧ (∀ s, tbl[k]? = some s → s.used = false) ∧
        (∀ j s, j < k → tbl[j]? = some s → s.used = true) ∧
        (add_one_proto tbl h dd).2 =
          tbl.set k { used := true, type := load_u16 dd.data, proto := h }) ∧
    slots_stay tbl (add_one_proto tbl h dd).2 ∧
    (∀ desc : List ifnet_demux_desc, slots_stay tbl (if_add_proto tbl h desc).2) ∧
    slots_stay tbl (if_del_proto tbl h).2 := by
  refine ⟨?_, ?_, fun desc => slots_stay_if_add tbl h desc, ?_⟩
  · intro hok hnew
    have hv := (add_one_proto_ok_bound tbl h dd hok).1
    rw [add_one_proto_eq, if_neg (not_not.mpr hv)] at hok ⊢
    cases hm : first_match (load_u16 dd.data) tbl with
    | some s =>
      rw [hm] at hok
      obtain ⟨h1, h2, h3⟩ := first_match_some hm
      by_cases hp : s.proto = h
      · exact absurd ⟨s, h1, h2, h3, hp⟩ hnew
      · simp [hp, EEXIST] at hok
    | none =>
      rw [hm] at hok
      cases hk : first_free_index tbl with
      | none => rw [hk] at hok; simp [ENOBUFS] at hok
      | some k =>
        obtain ⟨h1, h2, h3⟩ := first_free_index_spec tbl k hk
        exact ⟨k, h1, h2, h3, by rw [set_first_free _ _ k hk]⟩
  · exact slots_stay_of_step h tbl _ (slot_step_add_one h dd tbl tbl (slot_step_self h tbl))
  · exact slots_stay_of_step_del h tbl tbl (slot_step_self h tbl)

/-- Witness of C17: slots 0 and 2 are in use, slot 1 is free; the new binding of handle 7
goes to slot 1. -/
theorem slot_placement_witness :
    ∃ k, k < 4 ∧
      (add_one_proto [{ used := true, type := 0x0008, proto := 5 }, free_slot,
        { used := true, type := 0xdd86, proto := 6 }, free_slot] 7 (etype2_desc 0x08 0x06)).2 =
      [{ used := true, type := 0x0008, proto := 5 }, free_slot,
        { used := true, type := 0xdd86, proto := 6 }, free_slot].set k
          { used := true, type := 0x0608, proto := 7 } :=
  match (slot_placement [{ used := true, type := 0x0008, proto := 5 }, free_slot,
      { used := true, type := 0xdd86, proto := 6 }, free_slot] 7 (etype2_desc 0x08 0x06)).1
      (by decide) (by decide) with
  | ⟨k, hk, _, _, he⟩ => ⟨k, hk, he⟩

/-! ## Teardown of the interface -/

/-- C19, as stated, is false: on the zeroed table of capacity 8 (every slot free, with
handle 0), handle 5 asks for the type with data bytes 08 06 and then presents a descriptor
that is rejected. The call fails with `EINVAL`; slot 0, whose handle 0 differs from 5, is not
as it was before the call: it now carries the type 0x0608 and the handle 5, not in use. -/
theorem failed_attach_rewrites_free_slot :
    ¬ (∀ (tbl : List attached_proto) (h : Nat) (desc : List ifnet_demux_desc),
        (if_add_proto tbl h desc).1 ≠ 0 →
        ∀ (i : Nat) (s : attached_proto), tbl[i]? = some s → s.proto ≠ h →
          (if_add_proto tbl h desc).2[i]? = some s) := by
  intro H
  have h := H (List.replicate 8 free_slot) 5
    [etype2_desc 0x08 0x06, { type := 1, data := [], datalen := 0 }] (by decide)
    0 free_slot (by decide) (by decide)
  revert h
  decide

/-- C19, amended. A failed attach removes all of the handle's bindings and, of the bindings
in use, nothing else: when `if_add_proto(h, desc)` returns an error, afterwards no in-use
slot has handle `h`, the table has the same number of slots, every slot whose handle differs
from `h` after the call is exactly as it was before the call, and every slot that was in use
before the call with another handle is exactly as it was. Slot by slot, a slot is afterwards
either as before, or an in-use slot of `h` with its flag cleared, or a slot that was free
and that the call filled: it carries the handle `h` and is not in use. -/
theorem failed_attach_clears_handle (tbl : List attached_proto) (h : Nat)
    (desc : List ifnet_demux_desc) (herr : (if_add_proto tbl h desc).1 ≠ 0) :
    (∀ s ∈ (if_add_proto tbl h desc).2, s.used = true → s.proto ≠ h) ∧
    (if_add_proto tbl h desc).2.length = tbl.length ∧
    (∀ (i : Nat) (s' : attached_proto), (if_add_proto tbl h desc).2[i]? = some s' →
      s'.proto ≠ h → tbl[i]? = some s') ∧
    (∀ (i : Nat) (s : attached_proto), tbl[i]? = some s → s.used = true → s.proto ≠ h →
      (if_add_proto tbl h desc).2[i]? = some s) ∧
    (∀ (i : Nat) (s s' : attached_proto), tbl[i]? = some s →
      (if_add_proto tbl h desc).2[i]? = some s' →
      s' = s ∨ (s.used = true ∧ s.proto = h ∧ s' = { s with used := false }) ∨
        (s.used = false ∧ s'.used = false ∧ s'.proto = h)) := by
  obtain ⟨pre, hp, hcase⟩ := if_add_proto_shape h desc tbl tbl (slot_step_self h tbl)
  rcases hcase with ⟨h0, _⟩ | ⟨_, e⟩
  · exact absurd h0 herr
  · obtain ⟨hlen, hidx⟩ := forall2_index hp
    rw [e]
    refine ⟨?_, by rw [if_del_proto_loop_length, hlen], ?_, ?_, ?_⟩
    · intro s hs hu
      rw [if_del_proto_loop_eq_map, List.mem_map] at hs
      obtain ⟨x, _, rfl⟩ := hs
      by_cases hx : x.proto = h
      · simp [hx] at hu
      · simp [hx]
    · intro i s' hs' hne
      obtain ⟨x, hx, hy⟩ := if_del_proto_loop_index h pre i s' hs'
      have hxp : ¬ x.proto = h := by
        intro hc
        rw [if_pos hc] at hy
        exact hne (by rw [hy]; exact hc)
      rw [if_neg hxp] at hy
      have hi : i < tbl.length := by
        rw [← hlen]
        exact (List.getElem?_eq_some.mp hx).1
      rcases hidx i tbl[i] x (List.getElem?_eq_getElem hi) hx with e2 | ⟨_, _, h3, _⟩
      · rw [hy, e2]; exact List.getElem?_eq_getElem hi
      · exact absurd h3 hxp
    · intro i s hs hu hne
      have hi : i < pre.length := by
        rw [hlen]
        exact (List.getElem?_eq_some.mp hs).1
      rcases hidx i s pre[i] hs (List.getElem?_eq_getElem hi) with e2 | ⟨h1, _⟩
      · rw [if_del_proto_loop_eq_map, List.getElem?_map, List.getElem?_eq_getElem hi, e2]
        simp [hne]
      · rw [h1] at hu; cases hu
    · intro i s s' hs hs'
      obtain ⟨x, hx, hy⟩ := if_del_proto_loop_index h pre i s' hs'
      rcases hidx i s x hs hx with e2 | ⟨h1, _, h3, _⟩
      · rw [e2] at hy
        by_cases hp : s.proto = h
        · rw [if_pos hp] at hy
          cases hu : s.used with
          | true => exact Or.inr (Or.inl ⟨rfl, hp, hy⟩)
          | false =>
            left
            rw [hy]
            cases s
            simp only at hu
            rw [hu]
        · rw [if_neg hp] at hy
          exact Or.inl hy
      · rw [if_pos h3] at hy
        right; right
        rw [hy]
        exact ⟨h1, rfl, h3⟩

/-- Witness of the amended C19: handle 5 holds one type, gets a second one and fails on the
type of handle 6; afterwards the slot of handle 6 is as before and no slot of handle 5 is in
use. -/
theorem failed_attach_clears_handle_witness :
    (if_add_proto [{ used := true, type := 0x0008, proto := 5 },
        { used := true, type := 0xdd86, proto := 6 }, free_slot] 5
        [etype2_desc 0x08 0x06, etype2_desc 0x86 0xdd]).2 =
      [{ used := false, type := 0x0008, proto := 5 },
        { used := true, type := 0xdd86, proto := 6 },
        { used := false, type := 0x0608, proto := 5 }] ∧
    (if_add_proto [{ used := true, type := 0x0008, proto := 5 },
        { used := true, type := 0xdd86, proto := 6 }, free_slot] 5
        [etype2_desc 0x08 0x06, etype2_desc 0x86 0xdd]).2[1]? =
      some { used := true, type := 0xdd86, proto := 6 } :=
  ⟨by decide,
   (failed_attach_clears_handle [{ used := true, type := 0x0008, proto := 5 },
        { used := true, type := 0xdd86, proto := 6 }, free_slot] 5
        [etype2_desc 0x08 0x06, etype2_desc 0x86 0xdd] (by decide)).2.2.2.1 1
      { used := true, type := 0xdd86, proto := 6 } (by decide) (by decide) (by decide)⟩

/-! ## The framer and the demultiplexer together -/

/-- C20. Framer and demultiplexer agree on the header layout: on a table with the
uniqueness invariant, the frame that a successful `if_framer(P, D, T)` builds with the
interface address `S` is at least a header long, so `if_demux` does not reject it as too
short; `if_demux` returns 0 with `*proto = h` when an in-use slot holds the 16-bit value read
from the two bytes of `T` with handle `h`, and `ENOENT`, leaving `*proto`, when no in-use slot
holds it; the flag it sets is determined by `D` and `S` alone; and a handle that attached
with a descriptor whose data bytes are `T` is the one the frame is resolved to. -/
theorem framer_demux_agree (tbl : List attached_proto) (S fresh P D T : List Nat)
    (fl proto : Nat) (hu : unique_types tbl) (hD : D.length = 6) (hS : S.length = 6)
    (hT : T.length = 2) (hTb : is_bytes T) :
    sizeof_ether_header ≤ (if_framer S 0 fresh P D T).2.length ∧
    (∀ s ∈ tbl, s.used = true → s.type = load_u16 T →
      (if_demux tbl S { len := (if_framer S 0 fresh P D T).2.length, flags := fl }
        (if_framer S 0 fresh P D T).2 proto).1 = 0 ∧
      (if_demux tbl S { len := (if_framer S 0 fresh P D T).2.length, flags := fl }
        (if_framer S 0 fresh P D T).2 proto).2.2 = s.proto) ∧
    ((∀ s ∈ tbl, s.used = true → s.type ≠ load_u16 T) →
      (if_demux tbl S { len := (if_framer S 0 fresh P D T).2.length, flags := fl }
        (if_framer S 0 fresh P D T).2 proto).1 = ENOENT ∧
      (if_demux tbl S { len := (if_framer S 0 fresh P D T).2.length, flags := fl }
        (if_framer S 0 fresh P D T).2 proto).2.2 = proto) ∧
    (if_demux tbl S { len := (if_framer S 0 fresh P D T).2.length, flags := fl }
        (if_framer S 0 fresh P D T).2 proto).2.1 =
      (match spec_flag (spec_classify D S) with
       | some f => mbuf_setflags_mask { len := P.length + 14, flags := fl } f f
       | none => { len := P.length + 14, flags := fl }) ∧
    (∀ h : Nat,
      (if_add_proto tbl h [{ type := DLIL_DESC_ETYPE2, data := T, datalen := 2 }]).1 = 0 →
      (if_demux (if_add_proto tbl h [{ type := DLIL_DESC_ETYPE2, data := T, datalen := 2 }]).2
        S { len := (if_framer S 0 fresh P D T).2.length, flags := fl }
        (if_framer S 0 fresh P D T).2 proto).1 = 0 ∧
      (if_demux (if_add_proto tbl h [{ type := DLIL_DESC_ETYPE2, data := T, datalen := 2 }]).2
        S { len := (if_framer S 0 fresh P D T).2.length, flags := fl }
        (if_framer S 0 fresh P D T).2 proto).2.2 = h) := by
  rw [if_framer_ok S fresh P D T hD hS hT hTb]
  have hlen : (D ++ S ++ T ++ P).length = P.length + 14 := by
    simp [hD, hS, hT]; omega
  have hm : sizeof_ether_header ≤
      ({ len := (D ++ S ++ T ++ P).length, flags := fl } : mbuf).len := by
    show sizeof_ether_header ≤ (D ++ S ++ T ++ P).length
    rw [hlen]
    unfold sizeof_ether_header
    omega
  have hdemux := fun tb : List attached_proto =>
    if_demux_frame tb S D T P { len := (D ++ S ++ T ++ P).length, flags := fl } proto hD hS hT hm
  refine ⟨hm, ?_, ?_, ?_, ?_⟩
  · intro s hs h1 h2
    rw [hdemux tbl, ← h2, first_match_of_unique hu hs h1]
    exact ⟨rfl, rfl⟩
  · intro hnone
    rw [hdemux tbl, first_match_none.mpr hnone]
    exact ⟨rfl, rfl⟩
  · rw [hdemux tbl, hlen]
    have hc := if_demux_classify_eq S { len := P.length + 14, flags := fl } D (S ++ T ++ P) hD hS
    rw [show D ++ (S ++ T ++ P) = D ++ S ++ T ++ P by simp] at hc
    cases first_match (load_u16 T) tbl <;> exact hc
  · intro h hok
    obtain ⟨_, s, hs, h1, h2, h3⟩ := if_add_proto_ok_bound h _ tbl hok _ (List.mem_cons_self _ _)
    have h2' : s.type = load_u16 T := h2
    rw [hdemux _, ← h2', first_match_of_unique (unique_types_if_add h _ tbl hu) hs h1]
    exact ⟨rfl, h3⟩

/-- Witness of C20: handle 5 attaches with the descriptor bytes 08 00; a broadcast frame
built with the type tag 08 00 is resolved to handle 5 and gets `MBUF_BCAST`. -/
theorem framer_demux_agree_witness :
    if_demux [{ used := true, type := 0x0008, proto := 5 }, free_slot] [0x02, 0, 0, 0, 0, 1]
      { len := 18, flags := 0 }
      (if_framer [0x02, 0, 0, 0, 0, 1] 0 [] [0x45, 0x00, 0x00, 0x1c]
        [0xff, 0xff, 0xff, 0xff, 0xff, 0xff] [0x08, 0x00]).2 77 =
      (0, { len := 18, flags := MBUF_BCAST }, 5) :=
  have w := framer_demux_agree [{ used := true, type := 0x0008, proto := 5 }, free_slot]
    [0x02, 0, 0, 0, 0, 1] [] [0x45, 0x00, 0x00, 0x1c] [0xff, 0xff, 0xff, 0xff, 0xff, 0xff]
    [0x08, 0x00] 0 77 (by decide) (by decide) (by decide) (by decide) (by decide)
  Prod.ext (w.2.1 { used := true, type := 0x0008, proto := 5 } (by decide) (by decide)
      (by decide)).1
    (Prod.ext (w.2.2.2.1.trans (by decide))
      (w.2.1 { used := true, type := 0x0008, proto := 5 } (by decide) (by decide)
        (by decide)).2)

/-! ## Multicast addresses -/

theorem if_demux_mbuf (tbl : List attached_proto) (a : List Nat) (m : mbuf)
    (header : List Nat) (proto : Nat) (hm : sizeof_ether_header ≤ m.len) :
    (if_demux tbl a m header proto).2.1 = if_demux_classify a m header := by
  have hlt : ¬ m.len < sizeof_ether_header := by omega
  unfold if_demux
  rw [if_neg hlt]
  cases if_demux_find (ether_type header) tbl <;> rfl

theorem spec_classify_group (d a : List Nat) :
    (spec_classify d a = classification.Broadcast ∨
      spec_classify d a = classification.Multicast) ↔ d.headD 0 % 2 = 1 := by
  unfold spec_classify
  by_cases h1 : d = ETHER_BROADCAST_ADDR
  · rw [if_pos h1, h1]
    exact ⟨fun _ => by decide, fun _ => Or.inl rfl⟩
  · rw [if_neg h1]
    by_cases h2 : d.headD 0 % 2 = 1
    · rw [if_pos h2]
      exact ⟨fun _ => h2, fun _ => Or.inr rfl⟩
    · rw [if_neg h2]
      by_cases h3 : d = a
      · rw [if_pos h3]
        exact ⟨fun h => (by rcases h with h | h <;> cases h), fun h => absurd h h2⟩
      · rw [if_neg h3]
        exact ⟨fun h => (by rcases h with h | h <;> cases h), fun h => absurd h h2⟩

theorem setflags_clear (len f : Nat) :
    (mbuf_setflags_mask { len := len, flags := 0 } f f).flags = f := by
  simp [mbuf_setflags_mask]

theorem classify_flags_group (a d rest : List Nat) (len : Nat) (hd : d.length = 6)
    (ha : a.length = 6) :
    ((if_demux_classify a { len := len, flags := 0 } (d ++ rest)).flags = MBUF_BCAST ∨
      (if_demux_classify a { len := len, flags := 0 } (d ++ rest)).flags = MBUF_MCAST) ↔
      d.headD 0 % 2 = 1 := by
  rw [if_demux_classify_eq a _ d rest hd ha, ← spec_classify_group d a]
  cases spec_classify d a
  · exact ⟨fun _ => Or.inl rfl, fun _ => Or.inl (setflags_clear len MBUF_BCAST)⟩
  · exact ⟨fun _ => Or.inr rfl, fun _ => Or.inr (setflags_clear len MBUF_MCAST)⟩
  · constructor
    · intro h
      have h0 : ((0 : Nat) = MBUF_BCAST ∨ (0 : Nat) = MBUF_MCAST) := h
      revert h0
      decide
    · intro h
      rcases h with h | h <;> cases h
  · constructor
    · intro h
      have h0 : (MBUF_PROMISC = MBUF_BCAST ∨ MBUF_PROMISC = MBUF_MCAST) := by
        have e := setflags_clear len MBUF_PROMISC
        rcases h with h | h
        · exact Or.inl (e.symm.trans h)
        · exact Or.inr (e.symm.trans h)
      revert h0
      decide
    · intro h
      rcases h with h | h <;> cases h

theorem random_lladdr_first (random : List Nat) :
    (random_lladdr random).headD 0 = (random.getD 0 0 &&& 0xfe) ||| 0x02 := by
  rfl

theorem synthesized_bit_clear (x : Nat) : ((x &&& 0xfe) ||| 0x02) % 2 = 0 := by
  have h : ((x &&& 0xfe) ||| 0x02).testBit 0 = false := by
    rw [Nat.testBit_or, Nat.testBit_and]
    have h1 : Nat.testBit 0xfe 0 = false := by decide
    have h2 : Nat.testBit 0x02 0 = false := by decide
    rw [h1, h2]
    simp
  rw [Nat.testBit_zero] at h
  have := of_decide_eq_false h
  omega

theorem if_check_multi_link (maddr : sockaddr_dl) (hf : maddr.sa_family = AF_LINK) :
    if_check_multi maddr =
      if (LLADDR maddr).headD 0 % 2 = 1 then 0 else EADDRNOTAVAIL := by
  unfold if_check_multi
  rw [if_pos hf, Nat.and_one_is_mod]
  by_cases hb : (LLADDR maddr).headD 0 % 2 = 1
  · rw [if_pos hb, if_pos (by omega)]
  · rw [if_neg hb, if_neg (by omega)]

/-! ## Multicast address validation: `if_check_multi` -/

/-- C21. Multicast address validation: for an `AF_LINK` address `if_check_multi` returns 0
exactly when the low-order bit of the first link-address byte is set, and `EADDRNOTAVAIL`
otherwise. The addresses it accepts are exactly the destinations that `if_demux` classifies
as Broadcast or Multicast (it sets `MBUF_BCAST` or `MBUF_MCAST` on a frame to them). Every
link address synthesized by `initialize_interface` gets `EADDRNOTAVAIL`. An address of any
other family gets `EOPNOTSUPP`. -/
theorem check_multi (maddr : sockaddr_dl) :
    (maddr.sa_family = AF_LINK →
      (if_check_multi maddr = 0 ↔ (LLADDR maddr).headD 0 % 2 = 1) ∧
      (¬ (LLADDR maddr).headD 0 % 2 = 1 → if_check_multi maddr = EADDRNOTAVAIL) ∧
      (∀ d tail a : List Nat, d.length = 6 → a.length = 6 → LLADDR maddr = d ++ tail →
        (if_check_multi maddr = 0 ↔
          (spec_classify d a = classification.Broadcast ∨
            spec_classify d a = classification.Multicast)) ∧
        (∀ (tbl : List attached_proto) (len proto : Nat) (rest : List Nat),
          sizeof_ether_header ≤ len →
          (if_check_multi maddr = 0 ↔
            ((if_demux tbl a { len := len, flags := 0 } (d ++ rest) proto).2.1.flags = MBUF_BCAST ∨
             (if_demux tbl a { len := len, flags := 0 } (d ++ rest) proto).2.1.flags =
               MBUF_MCAST))))) ∧
    (maddr.sa_family ≠ AF_LINK → if_check_multi maddr = EOPNOTSUPP) ∧
    (∀ random : List Nat, if_check_multi (link_sockaddr (random_lladdr random)) = EADDRNOTAVAIL) := by
  have hne : EADDRNOTAVAIL ≠ 0 := by decide
  refine ⟨?_, ?_, ?_⟩
  · intro hf
    have hiff : if_check_multi maddr = 0 ↔ (LLADDR maddr).headD 0 % 2 = 1 := by
      rw [if_check_multi_link maddr hf]
      by_cases hb : (LLADDR maddr).headD 0 % 2 = 1
      · rw [if_pos hb]; exact ⟨fun _ => hb, fun _ => rfl⟩
      · rw [if_neg hb]; exact ⟨fun e => absurd e hne, fun e => absurd e hb⟩
    refine ⟨hiff, ?_, ?_⟩
    · intro hb
      rw [if_check_multi_link maddr hf, if_neg hb]
    · intro d tail a hd ha hl
      have hhead : (LLADDR maddr).headD 0 = d.headD 0 := by
        rw [hl]
        cases d with
        | nil => simp at hd
        | cons x xs => rfl
      rw [hiff, hhead]
      refine ⟨(spec_classify_group d a).symm, ?_⟩
      intro tbl len proto rest hlen
      rw [if_demux_mbuf tbl a _ (d ++ rest) proto hlen]
      exact (classify_flags_group a d rest len hd ha).symm
  · intro hf
    unfold if_check_multi
    rw [if_neg hf]
  · intro random
    have hf : (link_sockaddr (random_lladdr random)).sa_family = AF_LINK := rfl
    rw [if_check_multi_link _ hf]
    have hl : LLADDR (link_sockaddr (random_lladdr random)) = random_lladdr random := rfl
    rw [hl, random_lladdr_first, synthesized_bit_clear, if_neg (by decide)]

/-- Witness of C21: the multicast address 01:00:5E:00:00:01 is accepted, and a frame to it
gets `MBUF_MCAST` from `if_demux`; the address synthesized from the random bytes
FF 01 02 03 04 05 is refused with `EADDRNOTAVAIL`; an `AF_INET` address gets `EOPNOTSUPP`. -/
theorem check_multi_witness :
    if_check_multi (link_sockaddr [0x01, 0x00, 0x5e, 0x00, 0x00, 0x01]) = 0 ∧
    (if_demux [] [0x02, 0x11, 0x22, 0x33, 0x44, 0x55] { len := 60, flags := 0 }
      ([0x01, 0x00, 0x5e, 0x00, 0x00, 0x01] ++ [0x02, 0, 0, 0, 0, 1, 0x08, 0x00]) 0).2.1.flags =
      MBUF_MCAST ∧
    if_check_multi (link_sockaddr (random_lladdr [0xff, 1, 2, 3, 4, 5])) = EADDRNOTAVAIL ∧
    if_check_multi { sa_family := 2, sdl_nlen := 0, sdl_data := [10, 0, 0, 1] } = EOPNOTSUPP :=
  have w := check_multi (link_sockaddr [0x01, 0x00, 0x5e, 0x00, 0x00, 0x01])
  have w2 := (w.1 rfl).2.2 [0x01, 0x00, 0x5e, 0x00, 0x00, 0x01] []
    [0x02, 0x11, 0x22, 0x33, 0x44, 0x55] (by decide) (by decide) (by decide)
  have hz : if_check_multi (link_sockaddr [0x01, 0x00, 0x5e, 0x00, 0x00, 0x01]) = 0 :=
    ((w.1 rfl).1).2 (by decide)
  ⟨hz,
   ((w2.2 [] 60 0 [0x02, 0, 0, 0, 0, 1, 0x08, 0x00] (by decide)).1 hz).resolve_left (by decide),
   w.2.2 [0xff, 1, 2, 3, 4, 5],
   (check_multi { sa_family := 2, sdl_nlen := 0, sdl_data := [10, 0, 0, 1] }).2.1 (by decide)⟩

end TunTap
